import Mathlib

/-!
Verification of the SQL-evaluation core of this repository against its
natural-language specification.  The Python sources (process_sql.py,
evaluation.py, evaluation_module.py) are shallowly embedded below:

* pure functions become Lean functions on the same data;
* Python exceptions become `Except String` results carrying the message text;
* Python lists/tuples/dicts become Lean lists, products and association lists;
* a source `condition` list, which interleaves condition units (even indices)
  and connectives (odd indices), is embedded as the pair of those two slices,
  which is exactly how every consumer of a condition accesses it
  (`conds[::2]` and `conds[1::2]`);
* loops with counters become folds or fuel-indexed recursions, with fuel that
  is always at least the number of remaining iterations, so they stay
  kernel-computable;
* `str.upper()` is modelled on the ASCII letters, which covers all SQL text
  exercised here.
-/

namespace SqlEval

/-! ## Python string primitives shared by the tokenizer and the normalizer -/

/-- Whitespace in the sense of Python's `str.strip`, `\s` for the ASCII range:
space, tab, newline, carriage return, vertical tab, form feed. -/
def pyIsSpace (c : Char) : Bool :=
  c = ' ' || c = '\t' || c = '\n' || c = '\r' || c = '\x0b' || c = '\x0c'

/-- ASCII uppercasing of a single character, as `str.upper` acts on ASCII. -/
def pyCharUpper (c : Char) : Char :=
  if c.isLower then Char.ofNat (c.toNat - 32) else c

/-- Python `s.upper()` (ASCII fragment). -/
def pyUpper (l : List Char) : List Char := l.map pyCharUpper

/-- Python `s.strip()`: drop leading and trailing whitespace. -/
def pyStrip (l : List Char) : List Char :=
  ((l.dropWhile pyIsSpace).reverse.dropWhile pyIsSpace).reverse

theorem pyStrip_length_le (l : List Char) : (pyStrip l).length ≤ l.length := by
  unfold pyStrip
  simp only [List.length_reverse]
  exact le_trans ((List.dropWhile_sublist _).length_le)
    (by simpa using (@List.dropWhile_sublist Char l pyIsSpace).length_le)

/-- Fuel-indexed body of the source loop
`while s.endswith(';'): s = s[:-1].strip()`.  Every iteration strictly
shortens the list, so fuel equal to the initial length can never run out. -/
def semiLoopAux : Nat → List Char → List Char
  | 0, l => l
  | fuel + 1, l =>
    if l.getLast? = some ';' then semiLoopAux fuel (pyStrip l.dropLast) else l

/-- Source loop `while s.endswith(';'): s = s[:-1].strip()`. -/
def semiLoop (l : List Char) : List Char := semiLoopAux l.length l

/-! ## Score computation: `get_scores` (evaluation.py) -/

/-- Source `get_scores(count, pred_total, label_total)`: the per-category
score triple; `none` embeds the Python `(None, None, None)` sentinel used for
clauses absent from both queries. -/
def get_scores (count predTotal labelTotal : Nat) : Option (Nat × Nat × Nat) :=
  if predTotal = 0 ∧ labelTotal = 0 then
    none
  else if predTotal ≠ labelTotal then
    some (0, 0, 0)
  else if count = predTotal then
    some (1, 1, 1)
  else
    some (0, 0, 0)

/-! ## Multi-turn session (evaluation_module.py, `MultiTurnSession`) -/

/-- Session status: the source strings are Korean for in-progress and
complete. -/
inductive SessionStatus where
  | inProgress
  | complete
deriving DecidableEq, Repr

/-- A session turn; the payload of the source `turn_data` dictionary is left
abstract (a type parameter), with the `turn_number` the source writes into it
kept alongside.  Timestamps are elided. -/
structure MultiTurnSession (τ : Type) where
  maxTurns : Nat
  turns : List (Nat × τ)
  status : SessionStatus
deriving Repr

/-- Source `MultiTurnSession.__init__(session_id, max_turns)`. -/
def MultiTurnSession.new (τ : Type) (maxTurns : Nat) : MultiTurnSession τ :=
  { maxTurns := maxTurns, turns := [], status := .inProgress }

/-- Source `MultiTurnSession.add_turn`: always appends (with
`turn_number = len(turns) + 1`), then marks the session complete when the
turn count has reached `max_turns`.  There is no completed-session guard and
no `InvalidSessionStateError` anywhere in the source. -/
def MultiTurnSession.add_turn {τ : Type} (s : MultiTurnSession τ) (t : τ) :
    MultiTurnSession τ :=
  let turns := s.turns ++ [(s.turns.length + 1, t)]
  { s with
    turns := turns
    status := if s.maxTurns ≤ turns.length then .complete else s.status }

/-- Fold a list of turn payloads through `add_turn`. -/
def MultiTurnSession.addAll {τ : Type} (s : MultiTurnSession τ) (ts : List τ) :
    MultiTurnSession τ :=
  ts.foldl MultiTurnSession.add_turn s

end SqlEval

namespace SqlEval

/-! ## The AST data model (process_sql.py header comment)

`col_unit = (agg_id, col_id, distinct)`, `val_unit = (unit_op, col_unit1,
col_unit2)`, `cond_unit = (not_op, op_id, val_unit, val1, val2)`, and the
`sql` dictionary.  Aggregation ids index `AGG_OPS = (none, max, min, count,
sum, avg)`; unit ops index `UNIT_OPS = (none, -, +, *, /)`; condition ops
index `WHERE_OPS` (where `like` has index 9).  A numeric literal operand is
stored as the Python float `float(tok)` produces, with NaN kept apart
because `float('nan') != float('nan')`. -/

/-- A Python float as `float(tok)` yields it for the numeric literal tokens
the parser stores: NaN, a signed infinity, or a finite value kept exactly as
a fraction (a decimal literal is an exact fraction; `==` on such fractions
agrees with Python on every pair of literal tokens compared here). -/
inductive PyFloat where
  | nan
  | inf (neg : Bool)
  | finite (num : Int) (den : Nat)
deriving DecidableEq, Repr

/-- Python `==` on floats: NaN is unequal to everything, itself included;
finite fractions compare by value (so `3` equals `3.0`). -/
def pyFloatBeq : PyFloat → PyFloat → Bool
  | .finite a b, .finite c d => a * (d : Int) = c * (b : Int)
  | .inf a, .inf b => a = b
  | _, _ => false

/-- The float is not NaN — the condition under which Python `==` is
reflexive on it. -/
def pyFloatNoNan : PyFloat → Bool
  | .nan => false
  | _ => true

structure ColUnit where
  aggId : Nat
  colId : String
  distinct : Bool
deriving DecidableEq, Repr

structure ValUnit where
  unitOp : Nat
  colUnit1 : ColUnit
  colUnit2 : Option ColUnit
deriving DecidableEq, Repr

inductive Conn where
  | and
  | or
deriving DecidableEq, Repr

inductive OrderDir where
  | asc
  | desc
deriving DecidableEq, Repr

mutual
inductive CondVal : Type where
  | num (v : PyFloat)
  | str (s : String)
  | col (cu : ColUnit)
  | sub (q : SqlAst)

inductive TableUnit : Type where
  | table (tid : String)
  | sub (q : SqlAst)

inductive CondUnit : Type where
  | mk (notOp : Bool) (opId : Nat) (valUnit : ValUnit)
       (val1 : Option CondVal) (val2 : Option CondVal)

inductive SqlAst : Type where
  | mk (selDistinct : Bool)
       (selItems : List (Nat × ValUnit))
       (fromTables : List TableUnit)
       (fromCondUnits : List CondUnit) (fromConns : List Conn)
       (whereUnits : List CondUnit) (whereConns : List Conn)
       (groupBy : List ColUnit)
       (havingUnits : List CondUnit) (havingConns : List Conn)
       (orderBy : Option (OrderDir × List ValUnit))
       (limit : Option Int)
       (intersect : Option SqlAst)
       (union : Option SqlAst)
       (exceptOp : Option SqlAst)
end

def CondUnit.notOp : CondUnit → Bool
  | .mk n _ _ _ _ => n

def CondUnit.opId : CondUnit → Nat
  | .mk _ o _ _ _ => o

def CondUnit.valUnit : CondUnit → ValUnit
  | .mk _ _ v _ _ => v

def CondUnit.val1 : CondUnit → Option CondVal
  | .mk _ _ _ v _ => v

def CondUnit.val2 : CondUnit → Option CondVal
  | .mk _ _ _ _ v => v

/-- `sql['select']`: the pair of the distinct flag and the list of
(aggregation id, value unit) items. -/
def SqlAst.select : SqlAst → Bool × List (Nat × ValUnit)
  | .mk d s _ _ _ _ _ _ _ _ _ _ _ _ _ => (d, s)

/-- `sql['from']['table_units']`. -/
def SqlAst.fromTableUnits : SqlAst → List TableUnit
  | .mk _ _ t _ _ _ _ _ _ _ _ _ _ _ _ => t

/-- Even slice `sql['from']['conds'][::2]`. -/
def SqlAst.fromCondUnits : SqlAst → List CondUnit
  | .mk _ _ _ c _ _ _ _ _ _ _ _ _ _ _ => c

/-- Odd slice `sql['from']['conds'][1::2]`. -/
def SqlAst.fromConns : SqlAst → List Conn
  | .mk _ _ _ _ c _ _ _ _ _ _ _ _ _ _ => c

/-- Even slice `sql['where'][::2]`. -/
def SqlAst.whereUnits : SqlAst → List CondUnit
  | .mk _ _ _ _ _ w _ _ _ _ _ _ _ _ _ => w

/-- Odd slice `sql['where'][1::2]`. -/
def SqlAst.whereConns : SqlAst → List Conn
  | .mk _ _ _ _ _ _ w _ _ _ _ _ _ _ _ => w

def SqlAst.groupBy : SqlAst → List ColUnit
  | .mk _ _ _ _ _ _ _ g _ _ _ _ _ _ _ => g

/-- Even slice `sql['having'][::2]`. -/
def SqlAst.havingUnits : SqlAst → List CondUnit
  | .mk _ _ _ _ _ _ _ _ h _ _ _ _ _ _ => h

/-- Odd slice `sql['having'][1::2]`. -/
def SqlAst.havingConns : SqlAst → List Conn
  | .mk _ _ _ _ _ _ _ _ _ h _ _ _ _ _ => h

/-- `sql['orderBy']`: `none` embeds the empty list of the parse-failure
fallback structure, `some` embeds the (direction, value units) pair the
parser always produces. -/
def SqlAst.orderBy : SqlAst → Option (OrderDir × List ValUnit)
  | .mk _ _ _ _ _ _ _ _ _ _ o _ _ _ _ => o

def SqlAst.limit : SqlAst → Option Int
  | .mk _ _ _ _ _ _ _ _ _ _ _ l _ _ _ => l

def SqlAst.intersect : SqlAst → Option SqlAst
  | .mk _ _ _ _ _ _ _ _ _ _ _ _ i _ _ => i

def SqlAst.union : SqlAst → Option SqlAst
  | .mk _ _ _ _ _ _ _ _ _ _ _ _ _ u _ => u

/-- `sql['except']`. -/
def SqlAst.exceptOp : SqlAst → Option SqlAst
  | .mk _ _ _ _ _ _ _ _ _ _ _ _ _ _ e => e

/-- Python `len` of the interleaved `sql['where']` list: condition units at
even indices plus connectives at odd indices. -/
def whereLen (q : SqlAst) : Nat := q.whereUnits.length + q.whereConns.length

/-- Python `len` of the interleaved `sql['having']` list. -/
def havingLen (q : SqlAst) : Nat := q.havingUnits.length + q.havingConns.length

/-- Python `len(sql['orderBy'])`: the parse-failure fallback stores an empty
list, the parser always stores a 2-tuple. -/
def orderByLen (q : SqlAst) : Nat :=
  match q.orderBy with
  | none => 0
  | some _ => 2

/-! ## Structural equality, modelling Python `==` on AST values -/

mutual
def sqlAstBeq : SqlAst → SqlAst → Bool
  | .mk d1 s1 ft1 fcu1 fcc1 wu1 wc1 g1 hu1 hc1 ob1 lim1 i1 u1 e1,
    .mk d2 s2 ft2 fcu2 fcc2 wu2 wc2 g2 hu2 hc2 ob2 lim2 i2 u2 e2 =>
    d1 == d2 && s1 == s2 && tableListBeq ft1 ft2 &&
    condListBeq fcu1 fcu2 && fcc1 == fcc2 &&
    condListBeq wu1 wu2 && wc1 == wc2 && g1 == g2 &&
    condListBeq hu1 hu2 && hc1 == hc2 &&
    ob1 == ob2 && lim1 == lim2 &&
    optAstBeq i1 i2 && optAstBeq u1 u2 && optAstBeq e1 e2

def optAstBeq : Option SqlAst → Option SqlAst → Bool
  | none, none => true
  | some a, some b => sqlAstBeq a b
  | _, _ => false

def tableListBeq : List TableUnit → List TableUnit → Bool
  | [], [] => true
  | a :: as, b :: bs => tableUnitBeq a b && tableListBeq as bs
  | _, _ => false

def tableUnitBeq : TableUnit → TableUnit → Bool
  | .table a, .table b => a == b
  | .sub a, .sub b => sqlAstBeq a b
  | _, _ => false

def condListBeq : List CondUnit → List CondUnit → Bool
  | [], [] => true
  | a :: as, b :: bs => condUnitBeq a b && condListBeq as bs
  | _, _ => false

def condUnitBeq : CondUnit → CondUnit → Bool
  | .mk n1 o1 v1 a1 b1, .mk n2 o2 v2 a2 b2 =>
    n1 == n2 && o1 == o2 && v1 == v2 && optValBeq a1 a2 && optValBeq b1 b2

def optValBeq : Option CondVal → Option CondVal → Bool
  | none, none => true
  | some a, some b => condValBeq a b
  | _, _ => false

def condValBeq : CondVal → CondVal → Bool
  | .num a, .num b => pyFloatBeq a b
  | .str a, .str b => a == b
  | .col a, .col b => a == b
  | .sub a, .sub b => sqlAstBeq a b
  | _, _ => false
end

/-! Freedom from NaN literals, mirroring the recursion of the equality
family: Python `==` on these structures is reflexive exactly when no stored
float is NaN. -/

mutual
def sqlAstNoNan : SqlAst → Bool
  | .mk _ _ ft fcu _ wu _ _ hu _ _ _ i u e =>
    tableListNoNan ft && condListNoNan fcu && condListNoNan wu &&
    condListNoNan hu && optAstNoNan i && optAstNoNan u && optAstNoNan e

def optAstNoNan : Option SqlAst → Bool
  | none => true
  | some q => sqlAstNoNan q

def tableListNoNan : List TableUnit → Bool
  | [] => true
  | t :: ts => tableUnitNoNan t && tableListNoNan ts

def tableUnitNoNan : TableUnit → Bool
  | .table _ => true
  | .sub q => sqlAstNoNan q

def condListNoNan : List CondUnit → Bool
  | [] => true
  | c :: cs => condUnitNoNan c && condListNoNan cs

def condUnitNoNan : CondUnit → Bool
  | .mk _ _ _ a b => optValNoNan a && optValNoNan b

def optValNoNan : Option CondVal → Bool
  | none => true
  | some v => condValNoNan v

def condValNoNan : CondVal → Bool
  | .num v => pyFloatNoNan v
  | .str _ => true
  | .col _ => true
  | .sub q => sqlAstNoNan q
end

end SqlEval

namespace SqlEval

/-! ## Clause evaluation (evaluation.py)

`Evaluator.partial_match` calls each clause evaluator without a schema, so
the embeddings below follow the schema-less branches of the sources. -/

/-- Python `list.remove(v)`: drop the first element for which the given
equality test succeeds. -/
def pyRemoveFirst {α : Type} (p : α → Bool) : List α → List α
  | [] => []
  | a :: as => if p a then as else a :: pyRemoveFirst p as

/-- Source `eval_select(pred, label)` (schema-less branch): greedy
remove-on-match counts, with and without the aggregation id.  Returns
`(label_total, pred_total, cnt, cnt_wo_agg)`. -/
def eval_select (pred label : SqlAst) : Nat × Nat × Nat × Nat :=
  let predSel := pred.select.2
  let labelSel := label.select.2
  let predTotal := predSel.length
  let labelTotal := labelSel.length
  let cnt := (predSel.foldl
    (fun (st : Nat × List (Nat × ValUnit)) unit =>
      if st.2.contains unit then (st.1 + 1, st.2.erase unit) else st)
    (0, labelSel)).1
  let labelWoAgg := labelSel.map Prod.snd
  let cntWoAgg := (predSel.foldl
    (fun (st : Nat × List ValUnit) unit =>
      if st.2.contains unit.2 then (st.1 + 1, st.2.erase unit.2) else st)
    (0, labelWoAgg)).1
  (labelTotal, predTotal, cnt, cntWoAgg)

/-- Source `eval_where(pred, label)` (schema-less branch, in which the
"normalised" condition lists are plain copies).  Empty-side handling first;
then one loop that simultaneously counts exact condition matches and
value-unit-only matches, each against its own remove-on-match pool.  Returns
`(label_total, pred_total, cnt, cnt_wo_op)`. -/
def eval_where (pred label : SqlAst) : Nat × Nat × Nat × Nat :=
  let predConds := pred.whereUnits
  let labelConds := label.whereUnits
  let predTotal := predConds.length
  let labelTotal := labelConds.length
  if predTotal = 0 ∧ labelTotal = 0 then (0, 0, 0, 0)
  else if predTotal = 0 ∧ 0 < labelTotal then (labelTotal, predTotal, 0, 0)
  else if 0 < predTotal ∧ labelTotal = 0 then (labelTotal, predTotal, 0, 0)
  else
    let labelWoOp := labelConds.map CondUnit.valUnit
    let st := predConds.foldl
      (fun (st : Nat × List CondUnit × Nat × List ValUnit) unit =>
        let cnt := st.1
        let pool := st.2.1
        let cntWo := st.2.2.1
        let poolWo := st.2.2.2
        let exact : Nat × List CondUnit :=
          if pool.any (fun x => condUnitBeq x unit) then
            (cnt + 1, pyRemoveFirst (fun x => condUnitBeq x unit) pool)
          else (cnt, pool)
        let wo : Nat × List ValUnit :=
          if poolWo.contains unit.valUnit then
            (cntWo + 1, poolWo.erase unit.valUnit)
          else (cntWo, poolWo)
        (exact.1, exact.2, wo.1, wo.2))
      (0, labelConds, 0, labelWoOp)
    (labelTotal, predTotal, st.1, st.2.2.1)

/-- Source `pred.split(".")[1] if "." in pred else pred`. -/
def stripTableName (s : String) : String :=
  match s.splitOn "." with
  | _ :: x :: _ => x
  | _ => s

/-- Source `eval_group(pred, label)`: greedy matching of group-by column ids
with their table qualification stripped.  Returns
`(label_total, pred_total, cnt)`. -/
def eval_group (pred label : SqlAst) : Nat × Nat × Nat :=
  let predCols := (pred.groupBy.map ColUnit.colId).map stripTableName
  let labelCols := (label.groupBy.map ColUnit.colId).map stripTableName
  let predTotal := predCols.length
  let labelTotal := labelCols.length
  let cnt := (predCols.foldl
    (fun (st : Nat × List String) col =>
      if st.2.contains col then (st.1 + 1, st.2.erase col) else st)
    (0, labelCols)).1
  (labelTotal, predTotal, cnt)

/-- Source `eval_having(pred, label)`: all-or-nothing score over the
(group-by columns, having condition) pair.  Returns
`(label_total, pred_total, cnt)`. -/
def eval_having (pred label : SqlAst) : Nat × Nat × Nat :=
  let predTotal : Nat := if 0 < pred.groupBy.length then 1 else 0
  let labelTotal : Nat := if 0 < label.groupBy.length then 1 else 0
  let predCols := pred.groupBy.map ColUnit.colId
  let labelCols := label.groupBy.map ColUnit.colId
  let cnt : Nat :=
    if predTotal = 1 ∧ labelTotal = 1 ∧ predCols = labelCols ∧
        condListBeq pred.havingUnits label.havingUnits ∧
        pred.havingConns = label.havingConns
    then 1 else 0
  (labelTotal, predTotal, cnt)

/-- Source `extract_select_alias_mapping` (one side): the mapping from the
select-item position to the (aggregation id, value unit) item. -/
def select_alias_mapping (q : SqlAst) : List (Nat × (Nat × ValUnit)) :=
  q.select.2.enum

/-- Comparison used by `normalize_order_by_with_alias` without a schema:
Python compares an order-by value unit (a 3-tuple) against a select item
(a 2-tuple), and tuples of different lengths are never equal, so the test is
constantly false. -/
def valUnitMatchesSelectItem (_v : ValUnit) (_item : Nat × ValUnit) : Bool :=
  false

/-- Source `normalize_order_by_with_alias(orderby_info, select_mapping)`
(schema-less branch).  The first matching branch is unreachable because the
comparison above is constantly false (Python would substitute the whole
(aggregation id, value unit) pair there); the fallback keeps the value unit
unchanged. -/
def normalize_order_by_with_alias (ob : Option (OrderDir × List ValUnit))
    (mapping : List (Nat × (Nat × ValUnit))) : Option (OrderDir × List ValUnit) :=
  match ob with
  | none => none
  | some (dir, vs) =>
    some (dir, vs.map (fun v =>
      match mapping.find? (fun im => valUnitMatchesSelectItem v im.2) with
      | some im => im.2.2
      | none => v))

/-- Source `eval_order(pred, label)` (the second definition, line 729,
schema-less branch).  A side counts as present when its order-by field is a
pair with a non-empty value-unit list (`len(orderBy) > 1 and orderBy[1]`).
The source's rebuild of the alias mappings when both are empty reconstructs
exactly `extract_select_alias_mapping`, so it is not repeated here.  Returns
`(label_total, pred_total, cnt)`. -/
def eval_order (pred label : SqlAst) : Nat × Nat × Nat :=
  let obPresent : SqlAst → Bool := fun q =>
    match q.orderBy with
    | some (_, vs) => !vs.isEmpty
    | none => false
  let predTotal : Nat := if obPresent pred then 1 else 0
  let labelTotal : Nat := if obPresent label then 1 else 0
  if predTotal = 0 ∧ labelTotal = 0 then (0, 0, 0)
  else
    let predNorm := normalize_order_by_with_alias pred.orderBy (select_alias_mapping pred)
    let labelNorm := normalize_order_by_with_alias label.orderBy (select_alias_mapping label)
    let cnt : Nat := if predNorm = labelNorm then 1 else 0
    (labelTotal, predTotal, cnt)

/-! ### Logical connectives: `eval_and_or` (the second definition, line 768),
whose `get_operators` recurses through every nested sub-query found in
condition operands and set operations (`get_nestedSQL`). -/

mutual
def get_operators : SqlAst → List Conn
  | .mk _ _ _ fcu fcc wu wc _ hu hc _ _ i u e =>
    (fcc ++ wc ++ hc) ++
    (opsOfCondList fcu ++ opsOfCondList wu ++ opsOfCondList hu ++
     opsOfOptAst i ++ opsOfOptAst e ++ opsOfOptAst u)

def opsOfCondList : List CondUnit → List Conn
  | [] => []
  | c :: rest => opsOfCond c ++ opsOfCondList rest

def opsOfCond : CondUnit → List Conn
  | .mk _ _ _ v1 v2 => opsOfOptVal v1 ++ opsOfOptVal v2

def opsOfOptVal : Option CondVal → List Conn
  | some (.sub q) => get_operators q
  | _ => []

def opsOfOptAst : Option SqlAst → List Conn
  | some q => get_operators q
  | none => []
end

/-- Source `eval_and_or(pred, label)`: all-or-nothing comparison of the two
connective sequences.  Returns `(label_total, pred_total, cnt)`. -/
def eval_and_or (pred label : SqlAst) : Nat × Nat × Nat :=
  let predAo := (get_operators pred).filter (fun o => o = Conn.and ∨ o = Conn.or)
  let labelAo := (get_operators label).filter (fun o => o = Conn.and ∨ o = Conn.or)
  let predTotal := predAo.length
  let labelTotal := labelAo.length
  let cnt : Nat := if predAo = labelAo then predTotal else 0
  (labelTotal, predTotal, cnt)

end SqlEval

namespace SqlEval

/-! ### Keyword extraction (`get_keywords`, line 837) -/

/-- The structural keywords `get_keywords` can put into its result set. -/
inductive Kw where
  | kwWhere
  | kwGroup
  | kwHaving
  | kwAsc
  | kwDesc
  | kwOrder
  | kwExcept
  | kwUnion
  | kwIntersect
  | kwOr
  | kwNot
  | kwIn
  | kwLike
deriving DecidableEq, Repr

/-- Contribution of one condition unit to the `in` keyword check: the
source collects `cond_unit[2]` (always a value-unit tuple) plus the non-dict
operand values, and adds `in` when a collected tuple has first component 0.
A `(agg, col, distinct)` column operand is a tuple whose first component is
its aggregation id; numeric and string operands are not tuples. -/
def condInContribution (c : CondUnit) : Bool :=
  (c.valUnit.unitOp = 0) ||
  (match c.val1 with
   | some (.col cu) => cu.aggId = 0
   | _ => false) ||
  (match c.val2 with
   | some (.col cu) => cu.aggId = 0
   | _ => false)

/-- Source `get_keywords(sql)`. -/
def get_keywords (q : SqlAst) : Finset Kw :=
  let s : Finset Kw := ∅
  let s := if 0 < whereLen q then insert Kw.kwWhere s else s
  let s := if 0 < q.groupBy.length then insert Kw.kwGroup s else s
  let s := if 0 < havingLen q then insert Kw.kwHaving s else s
  let s :=
    match q.orderBy with
    | none => s
    | some (dir, _) =>
      insert Kw.kwOrder
        (insert (match dir with | .asc => Kw.kwAsc | .desc => Kw.kwDesc) s)
  let s := if q.exceptOp.isSome then insert Kw.kwExcept s else s
  let s := if q.union.isSome then insert Kw.kwUnion s else s
  let s := if q.intersect.isSome then insert Kw.kwIntersect s else s
  let ao := q.fromConns ++ q.whereConns ++ q.havingConns
  let s := if ao.contains Conn.or then insert Kw.kwOr s else s
  let condUnits := q.fromCondUnits ++ q.whereUnits ++ q.havingUnits
  let s := if condUnits.any CondUnit.notOp then insert Kw.kwNot s else s
  let s := if condUnits.any condInContribution then insert Kw.kwIn s else s
  let s := if condUnits.any (fun c => c.opId = 9) then insert Kw.kwLike s else s
  s

/-- Source `eval_keywords(pred, label)`.  Returns
`(label_total, pred_total, cnt)`. -/
def eval_keywords (pred label : SqlAst) : Nat × Nat × Nat :=
  let predKeywords := get_keywords pred
  let labelKeywords := get_keywords label
  (labelKeywords.card, predKeywords.card, (predKeywords ∩ labelKeywords).card)

/-! ### Partial-score records and exact match -/

/-- One entry of the `partial_match` result dictionary; `none` score fields
embed Python `None`.  The field for the key `rec` is called `recScore`
because `rec` is reserved in Lean. -/
structure ScoreEntry where
  acc : Option Nat
  recScore : Option Nat
  f1 : Option Nat
  labelTotal : Nat
  predTotal : Nat
  notUsed : Bool
deriving DecidableEq, Repr

/-- Source `create_score_dict(scores_result, label_total, pred_total)`:
the construction `partial_match` repeats inline for each category. -/
def create_score_dict (scoresResult : Option (Nat × Nat × Nat))
    (labelTotal predTotal : Nat) : ScoreEntry :=
  match scoresResult with
  | none => ⟨none, none, none, 0, 0, true⟩
  | some (a, r, f) => ⟨some a, some r, some f, labelTotal, predTotal, false⟩

/-- The ten-entry result dictionary of `Evaluator.partial_match`. -/
structure PartialScores where
  selectE : ScoreEntry
  selectNoAgg : ScoreEntry
  whereE : ScoreEntry
  whereNoOp : ScoreEntry
  groupNoHaving : ScoreEntry
  groupE : ScoreEntry
  orderE : ScoreEntry
  andOr : ScoreEntry
  iuen : ScoreEntry
  keywordsE : ScoreEntry
deriving DecidableEq, Repr

/-- One entry check of the `eval_exact_match` loop: a `None` f1 (excluded
category) is skipped, an f1 below 1.0 fails the match. -/
def entryMatches (e : ScoreEntry) : Bool :=
  match e.f1 with
  | none => true
  | some f => 1 ≤ f

/-- The `eval_exact_match` loop over all ten entries. -/
def allEntriesMatch (ps : PartialScores) : Bool :=
  entryMatches ps.selectE && entryMatches ps.selectNoAgg &&
  entryMatches ps.whereE && entryMatches ps.whereNoOp &&
  entryMatches ps.groupNoHaving && entryMatches ps.groupE &&
  entryMatches ps.orderE && entryMatches ps.andOr &&
  entryMatches ps.iuen && entryMatches ps.keywordsE

theorem sizeOf_setops_lt (q : SqlAst) :
    sizeOf q.intersect < sizeOf q ∧ sizeOf q.union < sizeOf q ∧
      sizeOf q.exceptOp < sizeOf q := by
  cases q with
  | mk d s ft fcu fcc wu wc g hu hc ob lim i u e =>
    simp only [SqlAst.intersect, SqlAst.union, SqlAst.exceptOp, SqlAst.mk.sizeOf_spec]
    omega

mutual
/-- Source `eval_nested(pred, label)`: totals mark which side has the nested
query, and a full recursive exact match is required to count.  Returns
`(label_total, pred_total, cnt)`. -/
def eval_nested : Option SqlAst → Option SqlAst → Nat × Nat × Nat
  | none, none => (0, 0, 0)
  | none, some _ => (1, 0, 0)
  | some _, none => (0, 1, 0)
  | some p, some g => (1, 1, eval_exact_match p g)
termination_by a b => (sizeOf a + sizeOf b, 0)
decreasing_by
  apply Prod.Lex.left
  simp only [Option.some.sizeOf_spec]
  omega

/-- Source `eval_IUEN(pred, label)`: sum of the three nested evaluations.
Returns `(label_total, pred_total, cnt)`. -/
def eval_IUEN (pred label : SqlAst) : Nat × Nat × Nat :=
  let r1 := eval_nested pred.intersect label.intersect
  let r2 := eval_nested pred.exceptOp label.exceptOp
  let r3 := eval_nested pred.union label.union
  (r1.1 + r2.1 + r3.1, r1.2.1 + r2.2.1 + r3.2.1, r1.2.2 + r2.2.2 + r3.2.2)
termination_by (sizeOf pred + sizeOf label, 1)
decreasing_by
  · apply Prod.Lex.left
    have h1 := (sizeOf_setops_lt pred).1
    have h2 := (sizeOf_setops_lt label).1
    omega
  · apply Prod.Lex.left
    have h1 := (sizeOf_setops_lt pred).2.2
    have h2 := (sizeOf_setops_lt label).2.2
    omega
  · apply Prod.Lex.left
    have h1 := (sizeOf_setops_lt pred).2.1
    have h2 := (sizeOf_setops_lt label).2.1
    omega

/-- Source `Evaluator.partial_match(pred, label)`. -/
def partial_match (pred label : SqlAst) : PartialScores :=
  let s := eval_select pred label
  let w := eval_where pred label
  let g := eval_group pred label
  let h := eval_having pred label
  let o := eval_order pred label
  let ao := eval_and_or pred label
  let iu := eval_IUEN pred label
  let kw := eval_keywords pred label
  { selectE := create_score_dict (get_scores s.2.2.1 s.2.1 s.1) s.1 s.2.1
    selectNoAgg := create_score_dict (get_scores s.2.2.2 s.2.1 s.1) s.1 s.2.1
    whereE := create_score_dict (get_scores w.2.2.1 w.2.1 w.1) w.1 w.2.1
    whereNoOp := create_score_dict (get_scores w.2.2.2 w.2.1 w.1) w.1 w.2.1
    groupNoHaving := create_score_dict (get_scores g.2.2 g.2.1 g.1) g.1 g.2.1
    groupE := create_score_dict (get_scores h.2.2 h.2.1 h.1) h.1 h.2.1
    orderE := create_score_dict (get_scores o.2.2 o.2.1 o.1) o.1 o.2.1
    andOr := create_score_dict (get_scores ao.2.2 ao.2.1 ao.1) ao.1 ao.2.1
    iuen := create_score_dict (get_scores iu.2.2 iu.2.1 iu.1) iu.1 iu.2.1
    keywordsE := create_score_dict (get_scores kw.2.2 kw.2.1 kw.1) kw.1 kw.2.1 }
termination_by (sizeOf pred + sizeOf label, 2)
decreasing_by
  apply Prod.Lex.right
  omega

/-- Source `Evaluator.eval_exact_match(pred, label)`: 1 iff every
non-excluded category has f1 = 1. -/
def eval_exact_match (pred label : SqlAst) : Nat :=
  if allEntriesMatch (partial_match pred label) then 1 else 0
termination_by (sizeOf pred + sizeOf label, 3)
decreasing_by
  apply Prod.Lex.right
  omega
end

/-! ### Hardness classification (`Evaluator.eval_hardness`, line 926) -/

/-- Source `condition_has_or(conds)`: an `or` connective in the odd slice. -/
def condition_has_or (conns : List Conn) : Bool := conns.contains Conn.or

/-- Source `condition_has_like(conds)`: a condition with operator id 9. -/
def condition_has_like (units : List CondUnit) : Bool :=
  units.any (fun c => c.opId = 9)

/-- Source `condition_has_sql(conds)`: a sub-query among operand values. -/
def condition_has_sql (units : List CondUnit) : Bool :=
  units.any (fun c =>
    (match c.val1 with
     | some (.sub _) => true
     | _ => false) ||
    (match c.val2 with
     | some (.sub _) => true
     | _ => false))

/-- The `count_comp1_` tally of `eval_hardness`: an interleaved where list of
length above one, a non-empty group-by, a non-empty order-by field, an `or`
connective among the from-clause conditions, and a `like` in the where
clause.  No table or join count appears. -/
def count_comp1 (q : SqlAst) : Nat :=
  (if 1 < whereLen q then 1 else 0) +
  (if 0 < q.groupBy.length then 1 else 0) +
  (if 0 < orderByLen q then 1 else 0) +
  (if condition_has_or q.fromConns then 1 else 0) +
  (if condition_has_like q.whereUnits then 1 else 0)

/-- The `count_comp2_` tally of `eval_hardness`: one per present set
operation. -/
def count_comp2 (q : SqlAst) : Nat :=
  (if q.exceptOp.isSome then 1 else 0) +
  (if q.union.isSome then 1 else 0) +
  (if q.intersect.isSome then 1 else 0)

/-- The `count_others` tally of `eval_hardness`: one per present set
operation again, plus sub-queries inside where and having conditions. -/
def count_others (q : SqlAst) : Nat :=
  (if q.intersect.isSome then 1 else 0) +
  (if q.exceptOp.isSome then 1 else 0) +
  (if q.union.isSome then 1 else 0) +
  (if condition_has_sql q.whereUnits then 1 else 0) +
  (if condition_has_sql q.havingUnits then 1 else 0)

/-- Source `Evaluator.eval_hardness(sql)`. -/
def eval_hardness (q : SqlAst) : String :=
  let c1 := count_comp1 q
  let c2 := count_comp2 q
  let co := count_others q
  if c1 ≤ 1 ∧ co = 0 ∧ c2 = 0 then "easy"
  else if (co ≤ 2 ∧ c1 ≤ 1 ∧ c2 = 0) ∨ (c1 ≤ 2 ∧ co < 2 ∧ c2 = 0) then "medium"
  else if (co ≤ 2 ∧ c1 ≤ 2 ∧ c2 ≤ 1) ∨ (c1 ≤ 3 ∧ co ≤ 2 ∧ c2 = 0) ∨
      (c1 ≤ 1 ∧ co = 0 ∧ c2 ≤ 1) then "hard"
  else "extra"

end SqlEval

namespace SqlEval


/-! ## Reflexivity of the clause evaluator

These lemmas establish that every clause evaluator gives a full score when a
query is compared against itself, leading to exact-match reflexivity. -/

theorem pyFloatBeq_refl (v : PyFloat) (h : pyFloatNoNan v = true) :
    pyFloatBeq v v = true := by
  cases v with
  | nan => simp [pyFloatNoNan] at h
  | inf neg => simp [pyFloatBeq]
  | finite a b => simp [pyFloatBeq]

theorem condListNoNan_mem {l : List CondUnit} (h : condListNoNan l = true) :
    ∀ c ∈ l, condUnitNoNan c = true := by
  induction l with
  | nil => intro c hc; simp at hc
  | cons a as ih =>
    simp only [condListNoNan, Bool.and_eq_true] at h
    intro c hc
    rcases List.mem_cons.mp hc with h1 | h1
    · exact h1 ▸ h.1
    · exact ih h.2 c h1

theorem tableListNoNan_mem {l : List TableUnit} (h : tableListNoNan l = true) :
    ∀ t ∈ l, tableUnitNoNan t = true := by
  induction l with
  | nil => intro t ht; simp at ht
  | cons a as ih =>
    simp only [tableListNoNan, Bool.and_eq_true] at h
    intro t ht
    rcases List.mem_cons.mp ht with h1 | h1
    · exact h1 ▸ h.1
    · exact ih h.2 t h1

theorem condListBeq_refl_of (l : List CondUnit)
    (h : ∀ c ∈ l, condUnitBeq c c = true) : condListBeq l l = true := by
  induction l with
  | nil => simp [condListBeq]
  | cons a as ih =>
    simp only [condListBeq, Bool.and_eq_true]
    exact ⟨h a (by simp), ih (fun c hc => h c (by simp [hc]))⟩

theorem tableListBeq_refl_of (l : List TableUnit)
    (h : ∀ t ∈ l, tableUnitBeq t t = true) : tableListBeq l l = true := by
  induction l with
  | nil => simp [tableListBeq]
  | cons a as ih =>
    simp only [tableListBeq, Bool.and_eq_true]
    exact ⟨h a (by simp), ih (fun t ht => h t (by simp [ht]))⟩

theorem sizeOf_pos_sqlAst (q : SqlAst) : 1 ≤ sizeOf q := by
  cases q with
  | mk d s ft fcu fcc wu wc g hu hc ob lim i u e =>
    simp only [SqlAst.mk.sizeOf_spec]
    omega

theorem beq_refl_all : ∀ n : Nat,
    (∀ q : SqlAst, sizeOf q ≤ n → sqlAstNoNan q = true → sqlAstBeq q q = true) ∧
    (∀ t : TableUnit, sizeOf t ≤ n → tableUnitNoNan t = true →
      tableUnitBeq t t = true) ∧
    (∀ c : CondUnit, sizeOf c ≤ n → condUnitNoNan c = true →
      condUnitBeq c c = true) ∧
    (∀ v : CondVal, sizeOf v ≤ n → condValNoNan v = true →
      condValBeq v v = true) := by
  intro n
  induction n using Nat.strong_induction_on with
  | _ n ih =>
    have hval : ∀ v : CondVal, sizeOf v ≤ n → condValNoNan v = true →
        condValBeq v v = true := by
      intro v hv hnn
      cases v with
      | num f =>
        simp only [condValNoNan] at hnn
        simp [condValBeq, pyFloatBeq_refl f hnn]
      | str s => simp [condValBeq]
      | col cu => simp [condValBeq]
      | sub q =>
        simp only [condValNoNan] at hnn
        have hsz : sizeOf q < sizeOf (CondVal.sub q) := by
          simp [CondVal.sub.sizeOf_spec]
        simp only [condValBeq]
        exact (ih (sizeOf q) (by omega)).1 q (le_refl _) hnn
    have hoptval : ∀ o : Option CondVal, sizeOf o ≤ n + 1 → optValNoNan o = true →
        optValBeq o o = true := by
      intro o ho hnn
      cases o with
      | none => simp [optValBeq]
      | some v =>
        simp only [Option.some.sizeOf_spec] at ho
        simp only [optValNoNan] at hnn
        simp only [optValBeq]
        exact hval v (by omega) hnn
    have hcond : ∀ c : CondUnit, sizeOf c ≤ n → condUnitNoNan c = true →
        condUnitBeq c c = true := by
      intro c hcc hnn
      cases c with
      | mk notOp opId valUnit v1 v2 =>
        simp only [CondUnit.mk.sizeOf_spec] at hcc
        simp only [condUnitNoNan, Bool.and_eq_true] at hnn
        simp only [condUnitBeq, Bool.and_eq_true, beq_self_eq_true, true_and]
        refine ⟨hoptval v1 ?_ hnn.1, hoptval v2 ?_ hnn.2⟩ <;> omega
    have htab : ∀ t : TableUnit, sizeOf t ≤ n → tableUnitNoNan t = true →
        tableUnitBeq t t = true := by
      intro t ht hnn
      cases t with
      | table tid => simp [tableUnitBeq]
      | sub qq =>
        simp only [tableUnitNoNan] at hnn
        have hsz : sizeOf qq < sizeOf (TableUnit.sub qq) := by
          simp [TableUnit.sub.sizeOf_spec]
        simp only [tableUnitBeq]
        exact (ih (sizeOf qq) (by omega)).1 qq (le_refl _) hnn
    have hast : ∀ q : SqlAst, sizeOf q ≤ n → sqlAstNoNan q = true →
        sqlAstBeq q q = true := by
      intro q hq hnn
      cases q with
      | mk d s ft fcu fcc wu wc g hu hc ob lim i u e =>
        have hq2 := hq
        simp only [SqlAst.mk.sizeOf_spec] at hq2
        simp only [sqlAstNoNan, Bool.and_eq_true] at hnn
        obtain ⟨⟨⟨⟨⟨⟨hnft, hnfcu⟩, hnwu⟩, hnhu⟩, hni⟩, hnu⟩, hne⟩ := hnn
        have hcl : ∀ l : List CondUnit, sizeOf l ≤ n → condListNoNan l = true →
            condListBeq l l = true := by
          intro l hl hlnn
          refine condListBeq_refl_of l (fun c hcmem => ?_)
          have h1 : sizeOf c < sizeOf l := List.sizeOf_lt_of_mem hcmem
          exact hcond c (by omega) (condListNoNan_mem hlnn c hcmem)
        have htl : ∀ l : List TableUnit, sizeOf l ≤ n → tableListNoNan l = true →
            tableListBeq l l = true := by
          intro l hl hlnn
          refine tableListBeq_refl_of l (fun t htmem => ?_)
          have h1 : sizeOf t < sizeOf l := List.sizeOf_lt_of_mem htmem
          exact htab t (by omega) (tableListNoNan_mem hlnn t htmem)
        have hopt : ∀ o : Option SqlAst, sizeOf o ≤ n → optAstNoNan o = true →
            optAstBeq o o = true := by
          intro o hoo honn
          cases o with
          | none => simp [optAstBeq]
          | some qq =>
            simp only [Option.some.sizeOf_spec] at hoo
            simp only [optAstNoNan] at honn
            have hpos := sizeOf_pos_sqlAst qq
            simp only [optAstBeq]
            exact (ih (sizeOf qq) (by omega)).1 qq (le_refl _) honn
        simp [sqlAstBeq, htl ft (by omega) hnft, hcl fcu (by omega) hnfcu,
          hcl wu (by omega) hnwu, hcl hu (by omega) hnhu,
          hopt i (by omega) hni, hopt u (by omega) hnu,
          hopt e (by omega) hne]
    exact ⟨hast, htab, hcond, hval⟩

theorem sqlAstBeq_refl (q : SqlAst) (h : sqlAstNoNan q = true) :
    sqlAstBeq q q = true :=
  (beq_refl_all (sizeOf q)).1 q (le_refl _) h

theorem condUnitBeq_refl (c : CondUnit) (h : condUnitNoNan c = true) :
    condUnitBeq c c = true :=
  (beq_refl_all (sizeOf c)).2.2.1 c (le_refl _) h

theorem condListBeq_refl (l : List CondUnit) (h : condListNoNan l = true) :
    condListBeq l l = true :=
  condListBeq_refl_of l (fun c hc => condUnitBeq_refl c (condListNoNan_mem h c hc))

end SqlEval

namespace SqlEval

theorem greedy_fold_self {α : Type} [BEq α] [LawfulBEq α] (l : List α) (c : Nat) :
    l.foldl
      (fun (st : Nat × List α) unit =>
        if st.2.contains unit then (st.1 + 1, st.2.erase unit) else st)
      (c, l) = (c + l.length, []) := by
  induction l generalizing c with
  | nil => simp
  | cons a as ih =>
    simp only [List.foldl_cons, List.contains_cons, BEq.refl, Bool.true_or,
      if_pos, List.erase_cons_head, List.length_cons]
    rw [ih (c + 1)]
    congr 1
    omega

theorem greedy_fold_self_map {α β : Type} [BEq β] [LawfulBEq β]
    (proj : α → β) (l : List α) (c : Nat) :
    l.foldl
      (fun (st : Nat × List β) unit =>
        if st.2.contains (proj unit) then (st.1 + 1, st.2.erase (proj unit)) else st)
      (c, l.map proj) = (c + l.length, []) := by
  induction l generalizing c with
  | nil => simp
  | cons a as ih =>
    simp only [List.map_cons, List.foldl_cons, List.contains_cons, BEq.refl,
      Bool.true_or, if_pos, List.erase_cons_head, List.length_cons]
    rw [ih (c + 1)]
    congr 1
    omega

theorem eval_select_self (q : SqlAst) :
    eval_select q q =
      (q.select.2.length, q.select.2.length, q.select.2.length, q.select.2.length) := by
  unfold eval_select
  simp only [greedy_fold_self, greedy_fold_self_map]
  simp

theorem where_fold_self : ∀ (l : List CondUnit),
    (∀ u ∈ l, condUnitBeq u u = true) →
    ∀ (c cw : Nat),
    l.foldl
      (fun (st : Nat × List CondUnit × Nat × List ValUnit) unit =>
        let cnt := st.1
        let pool := st.2.1
        let cntWo := st.2.2.1
        let poolWo := st.2.2.2
        let exact : Nat × List CondUnit :=
          if pool.any (fun x => condUnitBeq x unit) then
            (cnt + 1, pyRemoveFirst (fun x => condUnitBeq x unit) pool)
          else (cnt, pool)
        let wo : Nat × List ValUnit :=
          if poolWo.contains unit.valUnit then
            (cntWo + 1, poolWo.erase unit.valUnit)
          else (cntWo, poolWo)
        (exact.1, exact.2, wo.1, wo.2))
      (c, l, cw, l.map CondUnit.valUnit) = (c + l.length, [], cw + l.length, []) := by
  intro l
  induction l with
  | nil => intro hl c cw; simp
  | cons a as ih =>
    intro hl c cw
    have ha : condUnitBeq a a = true := hl a (by simp)
    have hany : (a :: as).any (fun x => condUnitBeq x a) = true := by
      simp [List.any_cons, ha]
    have hrm : pyRemoveFirst (fun x => condUnitBeq x a) (a :: as) = as := by
      simp [pyRemoveFirst, ha]
    simp only [List.map_cons, List.foldl_cons, hany, if_pos, hrm,
      List.contains_cons, BEq.refl, Bool.true_or, List.erase_cons_head,
      List.length_cons]
    rw [ih (fun u hu => hl u (by simp [hu])) (c + 1) (cw + 1)]
    simp only [Prod.mk.injEq, and_true, true_and]
    omega

theorem eval_where_self (q : SqlAst) (hnn : condListNoNan q.whereUnits = true) :
    eval_where q q =
      (q.whereUnits.length, q.whereUnits.length, q.whereUnits.length,
        q.whereUnits.length) := by
  unfold eval_where
  by_cases h : q.whereUnits.length = 0
  · simp [h]
  · rw [if_neg (by simp [h]), if_neg (by simp [h]), if_neg (by simp [h])]
    simp only [where_fold_self q.whereUnits
      (fun u hu => condUnitBeq_refl u (condListNoNan_mem hnn u hu))]
    simp

theorem eval_group_self (q : SqlAst) :
    eval_group q q = (q.groupBy.length, q.groupBy.length, q.groupBy.length) := by
  unfold eval_group
  simp only [greedy_fold_self]
  simp

theorem eval_having_self (q : SqlAst) (hnn : condListNoNan q.havingUnits = true) :
    eval_having q q =
      (if 0 < q.groupBy.length then 1 else 0,
        if 0 < q.groupBy.length then 1 else 0,
        if 0 < q.groupBy.length then 1 else 0) := by
  unfold eval_having
  by_cases h : 0 < q.groupBy.length
  · simp [h, condListBeq_refl q.havingUnits hnn]
  · simp [h]

theorem eval_order_self (q : SqlAst) :
    eval_order q q = (0, 0, 0) ∨ eval_order q q = (1, 1, 1) := by
  unfold eval_order
  by_cases h : (match q.orderBy with
    | some (_, vs) => !vs.isEmpty
    | none => false) = true
  · right
    simp [h]
  · left
    simp [h]

theorem eval_and_or_self (q : SqlAst) :
    eval_and_or q q =
      (((get_operators q).filter (fun o => o = Conn.and ∨ o = Conn.or)).length,
        ((get_operators q).filter (fun o => o = Conn.and ∨ o = Conn.or)).length,
        ((get_operators q).filter (fun o => o = Conn.and ∨ o = Conn.or)).length) := by
  unfold eval_and_or
  simp

theorem eval_keywords_self (q : SqlAst) :
    eval_keywords q q =
      ((get_keywords q).card, (get_keywords q).card, (get_keywords q).card) := by
  unfold eval_keywords
  simp

theorem entryMatches_diag (m lt pt : Nat) :
    entryMatches (create_score_dict (get_scores m m m) lt pt) = true := by
  unfold get_scores create_score_dict entryMatches
  by_cases h : m = 0
  · simp [h]
  · simp [h]

theorem sqlAstNoNan_parts (q : SqlAst) (h : sqlAstNoNan q = true) :
    condListNoNan q.whereUnits = true ∧ condListNoNan q.havingUnits = true ∧
    optAstNoNan q.intersect = true ∧ optAstNoNan q.union = true ∧
    optAstNoNan q.exceptOp = true := by
  cases q with
  | mk d s ft fcu fc wu wc g hu hc o l i u e =>
    simp only [sqlAstNoNan, Bool.and_eq_true] at h
    exact ⟨h.1.1.1.1.2, h.1.1.1.2, h.1.1.2, h.1.2, h.2⟩

theorem exact_match_self :
    ∀ q : SqlAst, sqlAstNoNan q = true → eval_exact_match q q = 1 := by
  suffices h : ∀ n : Nat, ∀ q : SqlAst, sizeOf q ≤ n → sqlAstNoNan q = true →
      eval_exact_match q q = 1 by
    intro q hq
    exact h (sizeOf q) q (le_refl _) hq
  intro n
  induction n using Nat.strong_induction_on with
  | _ n ih =>
    intro q hq hnn
    obtain ⟨hnw, hnh, hni, hnu, hne⟩ := sqlAstNoNan_parts q hnn
    have hnested : ∀ o : Option SqlAst, optAstNoNan o = true → sizeOf o < sizeOf q →
        eval_nested o o = (0, 0, 0) ∨ eval_nested o o = (1, 1, 1) := by
      intro o hon ho
      cases o with
      | none => left; simp [eval_nested]
      | some p =>
        right
        have hps : sizeOf p < sizeOf q := by
          simp only [Option.some.sizeOf_spec] at ho
          omega
        have hpn : sqlAstNoNan p = true := by
          simpa [optAstNoNan] using hon
        have hp1 : eval_exact_match p p = 1 := ih (sizeOf p) (by omega) p (le_refl _) hpn
        simp [eval_nested, hp1]
    have hIU : ∃ k : Nat, eval_IUEN q q = (k, k, k) := by
      have h1 := hnested q.intersect hni (sizeOf_setops_lt q).1
      have h2 := hnested q.exceptOp hne (sizeOf_setops_lt q).2.2
      have h3 := hnested q.union hnu (sizeOf_setops_lt q).2.1
      rw [eval_IUEN]
      rcases h1 with h1 | h1 <;> rcases h2 with h2 | h2 <;> rcases h3 with h3 | h3 <;>
        rw [h1, h2, h3] <;> exact ⟨_, rfl⟩
    obtain ⟨k, hk⟩ := hIU
    rw [eval_exact_match]
    have hall : allEntriesMatch (partial_match q q) = true := by
      rw [partial_match]
      rcases eval_order_self q with ho | ho <;>
        simp only [eval_select_self, eval_where_self q hnw, eval_group_self,
          eval_having_self q hnh, eval_and_or_self, eval_keywords_self, hk, ho] <;>
        simp [allEntriesMatch, entryMatches_diag]
    rw [hall]
    simp

/-! ## The recursive-descent parser (process_sql.py)

All parsing functions return `Except String`, carrying the text of the
Python exception.  The mutual recursion is indexed by a fuel argument that
every nested call decrements; parsing a token list only ever needs fuel
bounded by the work the parser performs, and `get_sql`-level entry points
are invoked with ample fuel, so the "fuel exhausted" branch is an
unreachable embedding artifact. -/

def CLAUSE_KEYWORDS : List String :=
  ["select", "from", "where", "group", "order", "limit", "intersect", "union", "except"]

def JOIN_KEYWORDS : List String := ["join", "on", "as"]

def WHERE_OPS : List String :=
  ["not", "between", "=", ">", "<", ">=", "<=", "!=", "in", "like", "is",
   "exists", "is not null"]

def UNIT_OPS : List String := ["none", "-", "+", "*", "/"]

def AGG_OPS : List String := ["none", "max", "min", "count", "sum", "avg"]

def COND_OPS : List String := ["and", "or"]

def SQL_OPS : List String := ["intersect", "union", "except"]

def ORDER_OPS : List String := ["desc", "asc"]

def ORACLE_FUNCTIONS : List String :=
  ["lower", "upper", "trim", "substr", "length", "nvl", "coalesce", "to_char",
   "to_date", "to_number", "round", "trunc", "abs", "ceil", "floor"]

def pyCharLower (c : Char) : Char :=
  if c.isUpper then Char.ofNat (c.toNat + 32) else c

def pyLowerStr (s : String) : String := String.mk (s.toList.map pyCharLower)

def pyUpperStr (s : String) : String := String.mk (pyUpper s.toList)

/-- Python `list.index(x)` on a list known to contain `x`. -/
def pyIndexOf (l : List String) (x : String) : Nat := l.findIdx (fun y => y = x)

def isInfixAux (needle : List Char) : List Char → Bool
  | [] => needle.isEmpty
  | h :: t => needle.isPrefixOf (h :: t) || isInfixAux needle t

/-- Python `"needle" in hay` on strings. -/
def containsStr (needle hay : String) : Bool :=
  isInfixAux needle.toList hay.toList

/-- Association-list lookup modelling a Python dict read (the dicts built
here never assign the same key twice on the paths exercised). -/
def pyLookup (m : List (String × String)) (k : String) : Option String :=
  (m.find? (fun p => p.1 = k)).map Prod.snd

/-- The `Schema` class: the raw table-to-columns mapping plus the `idMap`
produced by `Schema._map` (tables and columns are already lower-cased, as
the callers guarantee). -/
structure PySchema where
  schema : List (String × List String)
  idMap : List (String × String)

/-- `Schema._map`: the `*` and `rownum` markers, then `table.column` keys,
then bare table keys. -/
def buildIdMap (schema : List (String × List String)) : List (String × String) :=
  [("*", "__all__"), ("rownum", "__oracle_rownum__")] ++
  schema.flatMap (fun tc =>
    tc.2.map (fun c => (tc.1 ++ "." ++ c, "__" ++ tc.1 ++ "." ++ c ++ "__"))) ++
  schema.map (fun tc => (tc.1, "__" ++ tc.1 ++ "__"))

def PySchema.ofTables (schema : List (String × List String)) : PySchema :=
  ⟨schema, buildIdMap schema⟩

/-- Acceptance of Python `float(tok)` for the token strings the tokenizer
produces: optional sign, then either a decimal literal (digits, optional
point, optional exponent) or `inf`/`infinity`/`nan` in any casing. -/
def pyFloatOk (s : String) : Bool :=
  let l := s.toList
  let l := match l with
    | '+' :: r => r
    | '-' :: r => r
    | r => r
  let low := l.map pyCharLower
  if low = "inf".toList || low = "infinity".toList || low = "nan".toList then
    true
  else
    let ds1 := l.takeWhile Char.isDigit
    let r1 := l.drop ds1.length
    let ds2r2 : List Char × List Char :=
      match r1 with
      | '.' :: t => (t.takeWhile Char.isDigit, t.drop (t.takeWhile Char.isDigit).length)
      | _ => ([], r1)
    let ds2 := ds2r2.1
    let r2 := ds2r2.2
    if ds1.isEmpty && ds2.isEmpty then false
    else
      match r2 with
      | [] => true
      | 'e' :: t =>
        let t := match t with
          | '+' :: u => u
          | '-' :: u => u
          | u => u
        !t.isEmpty && t.all Char.isDigit
      | 'E' :: t =>
        let t := match t with
          | '+' :: u => u
          | '-' :: u => u
          | u => u
        !t.isEmpty && t.all Char.isDigit
      | _ => false

/-- Acceptance of Python `int(tok)` for such tokens: optional sign and a
non-empty digit string. -/
def pyIntOk (s : String) : Bool :=
  let l := match s.toList with
    | '+' :: r => r
    | '-' :: r => r
    | r => r
  !l.isEmpty && l.all Char.isDigit

def natOfDigits (l : List Char) : Nat :=
  l.foldl (fun a c => a * 10 + (c.toNat - 48)) 0

def pyIntVal (s : String) : Int :=
  match s.toList with
  | '+' :: r => Int.ofNat (natOfDigits r)
  | '-' :: r => - Int.ofNat (natOfDigits r)
  | r => Int.ofNat (natOfDigits r)

/-- The value `float(tok)` produces for a token `pyFloatOk` accepts (with a
zero fallback the guard makes unreachable), mirroring `pyFloatOk` branch for
branch. -/
def pyFloatVal (s : String) : PyFloat :=
  let signed : Bool × List Char := match s.toList with
    | '+' :: r => (false, r)
    | '-' :: r => (true, r)
    | r => (false, r)
  let neg := signed.1
  let l := signed.2
  let low := l.map pyCharLower
  if low = "nan".toList then .nan
  else if low = "inf".toList || low = "infinity".toList then .inf neg
  else
    let ds1 := l.takeWhile Char.isDigit
    let r1 := l.drop ds1.length
    let ds2r2 : List Char × List Char :=
      match r1 with
      | '.' :: t => (t.takeWhile Char.isDigit, t.drop (t.takeWhile Char.isDigit).length)
      | _ => ([], r1)
    let ds2 := ds2r2.1
    let r2 := ds2r2.2
    let mant : Int := Int.ofNat (natOfDigits (ds1 ++ ds2))
    let mant : Int := if neg then -mant else mant
    let den0 : Nat := 10 ^ ds2.length
    let expv : Int := match r2 with
      | 'e' :: t | 'E' :: t =>
        (match t with
         | '+' :: u => Int.ofNat (natOfDigits u)
         | '-' :: u => - Int.ofNat (natOfDigits u)
         | u => Int.ofNat (natOfDigits u))
      | _ => 0
    if 0 ≤ expv then .finite (mant * Int.ofNat (10 ^ expv.toNat)) den0
    else .finite mant (den0 * 10 ^ (-expv).toNat)

/-- Source `parse_limit(toks, start_idx)`: on a present but non-integer
limit token it records the value 1 without consuming the token; without a
`limit` keyword it leaves the index unchanged and the limit unset. -/
def parse_limit (toks : List String) (startIdx : Nat) : Nat × Option Int :=
  if toks.get? startIdx = some "limit" then
    let idx := startIdx + 1
    match toks.get? idx with
    | some t => if pyIntOk t then (idx + 1, some (pyIntVal t)) else (idx, some 1)
    | none => (idx, none)
  else (startIdx, none)

/-- The second (overriding) definition of `skip_semicolon`. -/
def skip_semicolon (toks : List String) (startIdx : Nat) : Nat :=
  startIdx + ((toks.drop startIdx).takeWhile (fun t => t = ";")).length

/-- The inner-token collection loop of `parse_col`'s Oracle-function branch:
tracks the parenthesis depth and collects depth-one tokens, stopping at the
matching close parenthesis (whose index is returned). -/
def oracleCollect : Nat → List String → Nat → Int → List String → Nat × List String
  | 0, _, currentIdx, _, acc => (currentIdx, acc)
  | fuel + 1, toks, currentIdx, parenCount, acc =>
    match toks.get? currentIdx with
    | none => (currentIdx, acc)
    | some t =>
      if t = "(" then oracleCollect fuel toks (currentIdx + 1) (parenCount + 1) acc
      else if t = ")" then
        if parenCount - 1 = 0 then (currentIdx, acc)
        else oracleCollect fuel toks (currentIdx + 1) (parenCount - 1) acc
      else if parenCount = 1 then
        oracleCollect fuel toks (currentIdx + 1) parenCount (acc ++ [t])
      else oracleCollect fuel toks (currentIdx + 1) parenCount acc

/-- Source `parse_table_unit(toks, start_idx, tables_with_alias, schema)`. -/
def parse_table_unit (toks : List String) (startIdx : Nat)
    (twa : List (String × String)) (schema : PySchema) :
    Except String (Nat × String × String) :=
  match toks.get? startIdx with
  | none => .error "list index out of range"
  | some t =>
    match pyLookup twa t with
    | none => .error ("KeyError: " ++ t)
    | some key =>
      let idx := if (toks.get? (startIdx + 1)).map pyLowerStr = some "as"
        then startIdx + 3 else startIdx + 1
      match pyLookup schema.idMap key with
      | none => .error ("KeyError: " ++ key)
      | some tid => .ok (idx, tid, key)

/-- Python-truthiness of the optional `default_tables` argument: both `None`
and an empty list skip the default-table search. -/
def truthyTables : Option (List String) → Option (List String)
  | some (t :: ts) => some (t :: ts)
  | _ => none

def dictInsertVU (m : List (String × ValUnit)) (k : String) (v : ValUnit) :
    List (String × ValUnit) :=
  if m.any (fun p => p.1 = k) then
    m.map (fun p => if p.1 = k then (k, v) else p)
  else m ++ [(k, v)]

def lookupVU (m : List (String × ValUnit)) (k : String) : Option ValUnit :=
  (m.find? (fun p => p.1 = k)).map Prod.snd

end SqlEval

namespace SqlEval

/-- First loop of `parse_col`'s default-table search: resolve each candidate
table through the alias map (a missing alias or table is a Python
`KeyError`), returning the first table carrying the column. -/
def findInDefaults (dts : List String) (tok : String)
    (twa : List (String × String)) (schema : PySchema) :
    Except String (Option String) :=
  match dts with
  | [] => .ok none
  | aliasName :: rest =>
    match pyLookup twa aliasName with
    | none => .error ("KeyError: " ++ aliasName)
    | some table =>
      match schema.schema.find? (fun p => p.1 = table) with
      | none => .error ("KeyError: " ++ table)
      | some tc =>
        if tc.2.contains tok then
          match pyLookup schema.idMap (table ++ "." ++ tok) with
          | some v => .ok (some v)
          | none => .error ("KeyError: " ++ table ++ "." ++ tok)
        else findInDefaults rest tok twa schema

/-- Second loop of `parse_col`'s default-table search: scan every schema
table for the column. -/
def findInAllTables (tables : List (String × List String)) (tok : String)
    (idMap : List (String × String)) : Except String (Option String) :=
  match tables with
  | [] => .ok none
  | (tname, cols) :: rest =>
    if cols.contains tok then
      match pyLookup idMap (tname ++ "." ++ tok) with
      | some v => .ok (some v)
      | none => .error ("KeyError: " ++ tname ++ "." ++ tok)
    else findInAllTables rest tok idMap

/-- The column-span scan of `parse_value`: advance until an `as` keyword, a
separator, a clause or join keyword, or a connective (all compared after
lower-casing). -/
def valueColStop (t : String) : Bool :=
  let ct := pyLowerStr t
  ct = "as" || ct = "," || ct = ")" || ct = ";" ||
    CLAUSE_KEYWORDS.contains ct || JOIN_KEYWORDS.contains ct ||
    ct = "and" || ct = "or"

def valueColEnd (toks : List String) (idx : Nat) : Nat :=
  idx + ((toks.drop idx).takeWhile (fun t => !(valueColStop t))).length

mutual

/-- Source `parse_col(toks, start_idx, tables_with_alias, schema,
default_tables)`. -/
def parse_col : Nat → List String → Nat → List (String × String) → PySchema →
    Option (List String) → Except String (Nat × String)
  | 0, _, _, _, _, _ => .error "fuel exhausted"
  | fuel + 1, toks, startIdx, twa, schema, defaultTables =>
    match toks.get? startIdx with
    | none => .error "Token index out of range"
    | some tok =>
      if tok = "*" then
        match pyLookup schema.idMap tok with
        | some v => .ok (startIdx + 1, v)
        | none => .error ("KeyError: " ++ tok)
      else if pyUpperStr tok = "ROWNUM" then
        .ok (startIdx + 1, "__oracle_rownum__")
      else if WHERE_OPS.contains tok ||
          ["<=", ">=", "!=", "<", ">", "=", "between", "like", "in"].contains tok then
        .error ("Operator '" ++ tok ++ "' is not a valid column name")
      else if pyFloatOk tok then
        .error ("Numeric value '" ++ tok ++ "' is not a valid column name")
      else if ORACLE_FUNCTIONS.contains (pyLowerStr tok) &&
          toks.get? (startIdx + 1) = some "(" then
        let collected := oracleCollect toks.length toks (startIdx + 1) 0 []
        let currentIdx := collected.1
        let innerToks := collected.2
        if innerToks ≠ [] then
          match parse_col fuel innerToks 0 twa schema defaultTables with
          | .ok r => .ok (currentIdx + 1, r.2)
          | .error _ =>
            -- `schema.idMap.get('*', 0)`: the default is Python's integer 0,
            -- but the key `*` is always present in an idMap built by `_map`
            .ok (currentIdx + 1, (pyLookup schema.idMap "*").getD "0")
        else .ok (currentIdx + 1, (pyLookup schema.idMap "*").getD "0")
      else if tok.contains '.' then
        match tok.splitOn "." with
        | [aliasName, col] =>
          match pyLookup twa aliasName with
          | some table =>
            let key := table ++ "." ++ col
            match pyLookup schema.idMap key with
            | some v => .ok (startIdx + 1, v)
            | none => .error ("Column " ++ key ++ " not found in schema")
          | none => .error ("Table alias " ++ aliasName ++ " not found")
        | _ => .error "too many values to unpack (expected 2)"
      else
        match truthyTables defaultTables with
        | some dts =>
          match findInDefaults dts tok twa schema with
          | .error e => .error e
          | .ok (some v) => .ok (startIdx + 1, v)
          | .ok none =>
            match findInAllTables schema.schema tok schema.idMap with
            | .error e => .error e
            | .ok (some v) => .ok (startIdx + 1, v)
            | .ok none => .error ("Error col: " ++ tok)
        | none => .error ("Error col: " ++ tok)
  termination_by structural fuel => fuel

/-- Source `parse_col_unit(toks, start_idx, tables_with_alias, schema,
default_tables)`. -/
def parse_col_unit : Nat → List String → Nat → List (String × String) →
    PySchema → Option (List String) → Except String (Nat × ColUnit)
  | 0, _, _, _, _, _ => .error "fuel exhausted"
  | fuel + 1, toks, startIdx, twa, schema, defaultTables =>
    match toks.get? startIdx with
    | none => .error "list index out of range"
    | some t0 =>
      let isBlock := t0 = "("
      let idx := if isBlock then startIdx + 1 else startIdx
      match toks.get? idx with
      | none => .error "list index out of range"
      | some t1 =>
        if AGG_OPS.contains t1 then
          let aggId := pyIndexOf AGG_OPS t1
          let idx := idx + 1
          if toks.get? idx = some "(" then
            let idx := idx + 1
            match toks.get? idx with
            | none => .error "list index out of range"
            | some t2 =>
              let isDistinct := t2 = "distinct"
              let idx := if isDistinct then idx + 1 else idx
              match parse_col fuel toks idx twa schema defaultTables with
              | .error e => .error e
              | .ok (idx2, colId) =>
                if toks.get? idx2 = some ")" then
                  .ok (idx2 + 1, ⟨aggId, colId, isDistinct⟩)
                else .error "AssertionError"
          else .error "AssertionError"
        else
          let isDistinct := t1 = "distinct"
          let idx := if isDistinct then idx + 1 else idx
          match parse_col fuel toks idx twa schema defaultTables with
          | .error e => .error e
          | .ok (idx2, colId) =>
            if isBlock then
              match toks.get? idx2 with
              | none => .error "list index out of range"
              | some t3 =>
                if t3 = ")" then .ok (idx2 + 1, ⟨0, colId, isDistinct⟩)
                else .error "AssertionError"
            else .ok (idx2, ⟨0, colId, isDistinct⟩)
  termination_by structural fuel => fuel

/-- Source `parse_val_unit(toks, start_idx, tables_with_alias, schema,
default_tables)`: the first column-unit failure is re-raised with a message
naming the failing token; a missing closing parenthesis only warns. -/
def parse_val_unit : Nat → List String → Nat → List (String × String) →
    PySchema → Option (List String) → Except String (Nat × ValUnit)
  | 0, _, _, _, _, _ => .error "fuel exhausted"
  | fuel + 1, toks, startIdx, twa, schema, defaultTables =>
    if toks.length ≤ startIdx then .error "parse_val_unit: Token index out of range"
    else
      let isBlock := toks.get? startIdx = some "("
      let idx := if isBlock then startIdx + 1 else startIdx
      match parse_val_unit_first fuel toks idx twa schema defaultTables with
      | .error e =>
        let currentToken := match toks.get? idx with
          | some t => t
          | none => "END_OF_TOKENS"
        .error ("parse_val_unit failed at token '" ++ currentToken ++ "' (index " ++
          toString idx ++ "): " ++ e)
      | .ok (idx2, colUnit1) =>
        match toks.get? idx2 with
        | some t2 =>
          if UNIT_OPS.contains t2 then
            let unitOp := pyIndexOf UNIT_OPS t2
            match parse_col_unit fuel toks (idx2 + 1) twa schema defaultTables with
            | .error e => .error e
            | .ok (idx3, colUnit2) =>
              let idx4 := if isBlock && toks.get? idx3 = some ")" then idx3 + 1 else idx3
              .ok (idx4, ⟨unitOp, colUnit1, some colUnit2⟩)
          else
            let idx4 := if isBlock && toks.get? idx2 = some ")" then idx2 + 1 else idx2
            .ok (idx4, ⟨0, colUnit1, none⟩)
        | none => .ok (idx2, ⟨0, colUnit1, none⟩)
  termination_by structural fuel => fuel

/-- The `try`-wrapped first `parse_col_unit` call inside `parse_val_unit`. -/
def parse_val_unit_first : Nat → List String → Nat → List (String × String) →
    PySchema → Option (List String) → Except String (Nat × ColUnit)
  | 0, _, _, _, _, _ => .error "fuel exhausted"
  | fuel + 1, toks, idx, twa, schema, defaultTables =>
    parse_col_unit fuel toks idx twa schema defaultTables
  termination_by structural fuel => fuel

/-- Source `parse_value(toks, start_idx, tables_with_alias, schema,
default_tables)`: a sub-select, a quoted string literal, a numeric literal,
or a column span re-parsed from the original start index. -/
def parse_value : Nat → List String → Nat → List (String × String) →
    PySchema → Option (List String) → Except String (Nat × CondVal)
  | 0, _, _, _, _, _ => .error "fuel exhausted"
  | fuel + 1, toks, startIdx, twa, schema, defaultTables =>
    match toks.get? startIdx with
    | none => .error "list index out of range"
    | some t0 =>
      let isBlock := t0 = "("
      let idx := if isBlock then startIdx + 1 else startIdx
      match toks.get? idx with
      | none => .error "list index out of range"
      | some t1 =>
        let parsed : Except String (Nat × CondVal) :=
          if t1 = "select" then
            match parse_sql fuel toks idx twa schema with
            | .error e => .error e
            | .ok (i, q) => .ok (i, CondVal.sub q)
          else if t1.contains '\"' then .ok (idx + 1, CondVal.str t1)
          else if pyFloatOk t1 then .ok (idx + 1, CondVal.num (pyFloatVal t1))
          else
            let endIdx := valueColEnd toks idx
            if startIdx < endIdx then
              match parse_col_unit fuel ((toks.drop startIdx).take (endIdx - startIdx)) 0
                  twa schema defaultTables with
              | .error e => .error e
              | .ok (_, cu) => .ok (endIdx, CondVal.col cu)
            else .error ("Empty column range at index " ++ toString startIdx)
        match parsed with
        | .error e => .error e
        | .ok (idx2, val) =>
          let idx3 := if isBlock && toks.get? idx2 = some ")" then idx2 + 1 else idx2
          .ok (idx3, val)
  termination_by structural fuel => fuel

/-- The body of `parse_condition`'s while loop, with the accumulated
condition units and connectives threaded through. -/
def parse_condition_loop : Nat → List String → Nat → List (String × String) →
    PySchema → Option (List String) → List CondUnit → List Conn →
    Except String (Nat × List CondUnit × List Conn)
  | 0, _, _, _, _, _, _, _ => .error "fuel exhausted"
  | fuel + 1, toks, idx, twa, schema, dts, units, conns =>
    if toks.length ≤ idx then .ok (idx, units, conns)
    else
      match parse_val_unit fuel toks idx twa schema dts with
      | .error e =>
        -- an operator mistaken for a column only stops the loop
        if containsStr "Operator" e && containsStr "is not a valid column name" e then
          .ok (idx, units, conns)
        else .error e
      | .ok (idx1, valUnit) =>
        let notOp := toks.get? idx1 = some "not"
        let idx2 := if notOp then idx1 + 1 else idx1
        if toks.get? idx2 = some "is not null" then
          parse_condition_after fuel toks (idx2 + 1) twa schema dts
            (units ++ [CondUnit.mk notOp (pyIndexOf WHERE_OPS "is not null") valUnit none none])
            conns
        else
          match toks.get? idx2 with
          | none => .ok (idx2, units, conns)
          | some currentOp =>
            if !(WHERE_OPS.contains currentOp) then .ok (idx2, units, conns)
            else
              let opId := pyIndexOf WHERE_OPS currentOp
              if opId = pyIndexOf WHERE_OPS "between" then
                match parse_value fuel toks (idx2 + 1) twa schema dts with
                | .error e => .error e
                | .ok (idx4, val1) =>
                  if toks.get? idx4 = some "and" then
                    match parse_value fuel toks (idx4 + 1) twa schema dts with
                    | .error e => .error e
                    | .ok (idx5, val2) =>
                      parse_condition_after fuel toks idx5 twa schema dts
                        (units ++ [CondUnit.mk notOp opId valUnit (some val1) (some val2)])
                        conns
                  else
                    parse_condition_after fuel toks idx4 twa schema dts
                      (units ++ [CondUnit.mk notOp opId valUnit (some val1) none]) conns
              else
                match parse_value fuel toks (idx2 + 1) twa schema dts with
                | .error e => .error e
                | .ok (idx4, val1) =>
                  parse_condition_after fuel toks idx4 twa schema dts
                    (units ++ [CondUnit.mk notOp opId valUnit (some val1) none]) conns
  termination_by structural fuel => fuel

/-- The tail of one `parse_condition` iteration: stop at a clause keyword or
separator, consume a connective, or re-enter the loop. -/
def parse_condition_after : Nat → List String → Nat → List (String × String) →
    PySchema → Option (List String) → List CondUnit → List Conn →
    Except String (Nat × List CondUnit × List Conn)
  | 0, _, _, _, _, _, _, _ => .error "fuel exhausted"
  | fuel + 1, toks, idx, twa, schema, dts, units, conns =>
    match toks.get? idx with
    | some t =>
      if CLAUSE_KEYWORDS.contains t || t = ")" || t = ";" ||
          JOIN_KEYWORDS.contains t then
        .ok (idx, units, conns)
      else if t = "and" then
        parse_condition_loop fuel toks (idx + 1) twa schema dts units (conns ++ [Conn.and])
      else if t = "or" then
        parse_condition_loop fuel toks (idx + 1) twa schema dts units (conns ++ [Conn.or])
      else parse_condition_loop fuel toks idx twa schema dts units conns
    | none => parse_condition_loop fuel toks idx twa schema dts units conns
  termination_by structural fuel => fuel

/-- The body of `parse_from`'s while loop. -/
def parse_from_loop : Nat → List String → Nat → List (String × String) →
    PySchema → List TableUnit → List CondUnit → List Conn → List String →
    Except String (Nat × List TableUnit × List CondUnit × List Conn × List String)
  | 0, _, _, _, _, _, _, _, _ => .error "fuel exhausted"
  | fuel + 1, toks, idx, twa, schema, tus, units, conns, dts =>
    if toks.length ≤ idx then .ok (idx, tus, units, conns, dts)
    else
      let t0 := (toks.get? idx).getD ""
      let isBlock := t0 = "("
      let idx1 := if isBlock then idx + 1 else idx
      let step : Except String (Nat × List TableUnit × List String) :=
        match toks.get? idx1 with
        | none => .error "list index out of range"
        | some t1 =>
          if t1 = "select" then
            match parse_sql fuel toks idx1 twa schema with
            | .error e => .error e
            | .ok (i, q) => .ok (i, tus ++ [TableUnit.sub q], dts)
          else
            let idx1' := if t1 = "join" then idx1 + 1 else idx1
            match parse_table_unit toks idx1' twa schema with
            | .error e => .error e
            | .ok (i, tid, tname) => .ok (i, tus ++ [TableUnit.table tid], dts ++ [tname])
      match step with
      | .error e => .error e
      | .ok (idx2, tus', dts') =>
        let onStep : Except String (Nat × List CondUnit × List Conn) :=
          if toks.get? idx2 = some "on" then
            match parse_condition_loop fuel toks (idx2 + 1) twa schema (some dts') [] [] with
            | .error e => .error e
            | .ok (i, thisUnits, thisConns) =>
              let conns2 := conns ++
                (if !(units.isEmpty && conns.isEmpty) then [Conn.and] else []) ++ thisConns
              .ok (i, units ++ thisUnits, conns2)
          else .ok (idx2, units, conns)
        match onStep with
        | .error e => .error e
        | .ok (idx3, units', conns') =>
          let closeStep : Except String Nat :=
            if isBlock then
              match toks.get? idx3 with
              | none => .error "list index out of range"
              | some t => if t = ")" then .ok (idx3 + 1) else .error "AssertionError"
            else .ok idx3
          match closeStep with
          | .error e => .error e
          | .ok idx4 =>
            match toks.get? idx4 with
            | some t =>
              if CLAUSE_KEYWORDS.contains t || t = ")" || t = ";" then
                .ok (idx4, tus', units', conns', dts')
              else parse_from_loop fuel toks idx4 twa schema tus' units' conns' dts'
            | none => parse_from_loop fuel toks idx4 twa schema tus' units' conns' dts'
  termination_by structural fuel => fuel

/-- Source `parse_from(toks, start_idx, tables_with_alias, schema)`:
positions itself after the first `from` token at or after `start_idx`. -/
def parse_from : Nat → List String → Nat → List (String × String) → PySchema →
    Except String (Nat × List TableUnit × List CondUnit × List Conn × List String)
  | 0, _, _, _, _ => .error "fuel exhausted"
  | fuel + 1, toks, startIdx, twa, schema =>
    match (toks.drop startIdx).findIdx? (fun t => t = "from") with
    | none => .error "'from' not found"
    | some k => parse_from_loop fuel toks (startIdx + k + 1) twa schema [] [] [] []
  termination_by structural fuel => fuel

/-- The body of `parse_select`'s while loop. -/
def parse_select_loop : Nat → List String → Nat → List (String × String) →
    PySchema → Option (List String) → List (Nat × ValUnit) →
    List (String × ValUnit) →
    Except String (Nat × List (Nat × ValUnit) × List (String × ValUnit))
  | 0, _, _, _, _, _, _, _ => .error "fuel exhausted"
  | fuel + 1, toks, idx, twa, schema, dts, vus, amap =>
    match toks.get? idx with
    | none => .ok (idx, vus, amap)
    | some t =>
      if CLAUSE_KEYWORDS.contains t then .ok (idx, vus, amap)
      else
        let isAgg := AGG_OPS.contains t
        let aggId := if isAgg then pyIndexOf AGG_OPS t else 0
        let idx1 := if isAgg then idx + 1 else idx
        match parse_val_unit fuel toks idx1 twa schema dts with
        | .error e => .error e
        | .ok (idx2, vu) =>
          let vus' := vus ++ [(aggId, vu)]
          let aliasStep : Except String (List (String × ValUnit) × Nat) :=
            match toks.get? idx2 with
            | some t2 =>
              if t2 ≠ "," ∧ ¬ CLAUSE_KEYWORDS.contains (pyLowerStr t2) then
                if pyLowerStr t2 = "as" then
                  match toks.get? (idx2 + 1) with
                  | some a => .ok (dictInsertVU amap (pyLowerStr a) vu, idx2 + 2)
                  | none => .error "list index out of range"
                else .ok (dictInsertVU amap (pyLowerStr t2) vu, idx2 + 1)
              else .ok (amap, idx2)
            | none => .ok (amap, idx2)
          match aliasStep with
          | .error e => .error e
          | .ok (amap', idx3) =>
            let idx4 := if toks.get? idx3 = some "," then idx3 + 1 else idx3
            parse_select_loop fuel toks idx4 twa schema dts vus' amap'
  termination_by structural fuel => fuel

/-- Source `parse_select(toks, start_idx, tables_with_alias, schema,
default_tables)`: returns the select clause together with the select-alias
map used later by `parse_order_by`. -/
def parse_select : Nat → List String → Nat → List (String × String) →
    PySchema → Option (List String) →
    Except String (Nat × (Bool × List (Nat × ValUnit)) × List (String × ValUnit))
  | 0, _, _, _, _, _ => .error "fuel exhausted"
  | fuel + 1, toks, startIdx, twa, schema, dts =>
    match toks.get? startIdx with
    | none => .error "list index out of range"
    | some t =>
      if t ≠ "select" then .error "'select' not found"
      else
        let idx := startIdx + 1
        let isDistinct := toks.get? idx = some "distinct"
        let idx := if isDistinct then idx + 1 else idx
        match parse_select_loop fuel toks idx twa schema dts [] [] with
        | .error e => .error e
        | .ok (idx2, vus, amap) => .ok (idx2, (isDistinct, vus), amap)
  termination_by structural fuel => fuel

/-- Source `parse_where(toks, start_idx, tables_with_alias, schema,
default_tables)`. -/
def parse_where : Nat → List String → Nat → List (String × String) →
    PySchema → Option (List String) →
    Except String (Nat × List CondUnit × List Conn)
  | 0, _, _, _, _, _ => .error "fuel exhausted"
  | fuel + 1, toks, startIdx, twa, schema, dts =>
    if toks.get? startIdx ≠ some "where" then .ok (startIdx, [], [])
    else parse_condition_loop fuel toks (startIdx + 1) twa schema dts [] []
  termination_by structural fuel => fuel

/-- The body of `parse_group_by`'s while loop. -/
def parse_group_by_loop : Nat → List String → Nat → List (String × String) →
    PySchema → Option (List String) → List ColUnit →
    Except String (Nat × List ColUnit)
  | 0, _, _, _, _, _, _ => .error "fuel exhausted"
  | fuel + 1, toks, idx, twa, schema, dts, cols =>
    match toks.get? idx with
    | none => .ok (idx, cols)
    | some t =>
      if CLAUSE_KEYWORDS.contains t || t = ")" || t = ";" then .ok (idx, cols)
      else
        match parse_col_unit fuel toks idx twa schema dts with
        | .error e => .error e
        | .ok (idx2, cu) =>
          let cols' := cols ++ [cu]
          if toks.get? idx2 = some "," then
            parse_group_by_loop fuel toks (idx2 + 1) twa schema dts cols'
          else .ok (idx2, cols')
  termination_by structural fuel => fuel

/-- Source `parse_group_by(toks, start_idx, tables_with_alias, schema,
default_tables)`. -/
def parse_group_by : Nat → List String → Nat → List (String × String) →
    PySchema → Option (List String) → Except String (Nat × List ColUnit)
  | 0, _, _, _, _, _ => .error "fuel exhausted"
  | fuel + 1, toks, startIdx, twa, schema, dts =>
    if toks.get? startIdx ≠ some "group" then .ok (startIdx, [])
    else
      match toks.get? (startIdx + 1) with
      | none => .error "list index out of range"
      | some t =>
        if t ≠ "by" then .error "AssertionError"
        else parse_group_by_loop fuel toks (startIdx + 2) twa schema dts []
  termination_by structural fuel => fuel

/-- The body of `parse_order_by`'s while loop, threading the current order
direction. -/
def parse_order_by_loop : Nat → List String → Nat → List (String × String) →
    PySchema → Option (List String) → OrderDir → List ValUnit →
    List (String × ValUnit) → Except String (Nat × OrderDir × List ValUnit)
  | 0, _, _, _, _, _, _, _, _ => .error "fuel exhausted"
  | fuel + 1, toks, idx, twa, schema, dts, orderType, vus, amap =>
    match toks.get? idx with
    | none => .ok (idx, orderType, vus)
    | some t =>
      if CLAUSE_KEYWORDS.contains t || t = ")" || t = ";" then
        .ok (idx, orderType, vus)
      else
        let itemStep : Except String (Nat × ValUnit) :=
          if amap ≠ [] then
            match lookupVU amap (pyLowerStr t) with
            | some v => .ok (idx + 1, v)
            | none => parse_val_unit fuel toks idx twa schema dts
          else parse_val_unit fuel toks idx twa schema dts
        match itemStep with
        | .error e => .error e
        | .ok (idx2, vu) =>
          let vus' := vus ++ [vu]
          let dirStep : OrderDir × Nat :=
            match toks.get? idx2 with
            | some "desc" => (OrderDir.desc, idx2 + 1)
            | some "asc" => (OrderDir.asc, idx2 + 1)
            | _ => (orderType, idx2)
          if toks.get? dirStep.2 = some "," then
            parse_order_by_loop fuel toks (dirStep.2 + 1) twa schema dts dirStep.1 vus' amap
          else .ok (dirStep.2, dirStep.1, vus')
  termination_by structural fuel => fuel

/-- Source `parse_order_by(toks, start_idx, tables_with_alias, schema,
default_tables, select_alias_map)`: always returns the (direction, value
units) pair, ascending with no items when the clause is absent. -/
def parse_order_by : Nat → List String → Nat → List (String × String) →
    PySchema → Option (List String) → List (String × ValUnit) →
    Except String (Nat × OrderDir × List ValUnit)
  | 0, _, _, _, _, _, _ => .error "fuel exhausted"
  | fuel + 1, toks, startIdx, twa, schema, dts, amap =>
    if toks.get? startIdx ≠ some "order" then .ok (startIdx, OrderDir.asc, [])
    else
      match toks.get? (startIdx + 1) with
      | none => .error "list index out of range"
      | some t =>
        if t ≠ "by" then .error "AssertionError"
        else parse_order_by_loop fuel toks (startIdx + 2) twa schema dts OrderDir.asc [] amap
  termination_by structural fuel => fuel

/-- Source `parse_having(toks, start_idx, tables_with_alias, schema,
default_tables)`. -/
def parse_having : Nat → List String → Nat → List (String × String) →
    PySchema → Option (List String) →
    Except String (Nat × List CondUnit × List Conn)
  | 0, _, _, _, _, _ => .error "fuel exhausted"
  | fuel + 1, toks, startIdx, twa, schema, dts =>
    if toks.get? startIdx ≠ some "having" then .ok (startIdx, [], [])
    else parse_condition_loop fuel toks (startIdx + 1) twa schema dts [] []
  termination_by structural fuel => fuel

/-- Source `parse_sql(toks, start_idx, tables_with_alias, schema)`: the from
clause is parsed first for the default tables, then each clause in turn, and
a trailing set operation recurses. -/
def parse_sql : Nat → List String → Nat → List (String × String) → PySchema →
    Except String (Nat × SqlAst)
  | 0, _, _, _, _ => .error "fuel exhausted"
  | fuel + 1, toks, startIdx, twa, schema =>
    match toks.get? startIdx with
    | none => .error "list index out of range"
    | some t0 =>
      let isBlock := t0 = "("
      let idx0 := if isBlock then startIdx + 1 else startIdx
      match parse_from fuel toks startIdx twa schema with
      | .error e => .error e
      | .ok (fromEnd, tus, funits, fconns, dts) =>
        match parse_select fuel toks idx0 twa schema (some dts) with
        | .error e => .error e
        | .ok (_, selectPair, amap) =>
          match parse_where fuel toks fromEnd twa schema (some dts) with
          | .error e => .error e
          | .ok (idx1, wunits, wconns) =>
            match parse_group_by fuel toks idx1 twa schema (some dts) with
            | .error e => .error e
            | .ok (idx2, gcols) =>
              match parse_having fuel toks idx2 twa schema (some dts) with
              | .error e => .error e
              | .ok (idx3, hunits, hconns) =>
                match parse_order_by fuel toks idx3 twa schema (some dts) amap with
                | .error e => .error e
                | .ok (idx4, ob) =>
                  let lim := parse_limit toks idx4
                  let idx5 := skip_semicolon toks lim.1
                  let closeStep : Except String Nat :=
                    if isBlock then
                      match toks.get? idx5 with
                      | none => .error "list index out of range"
                      | some t => if t = ")" then .ok (idx5 + 1) else .error "AssertionError"
                    else .ok idx5
                  match closeStep with
                  | .error e => .error e
                  | .ok idx6 =>
                    let idx7 := skip_semicolon toks idx6
                    let base : Option SqlAst → Option SqlAst → Option SqlAst → SqlAst :=
                      fun i u e =>
                        SqlAst.mk selectPair.1 selectPair.2 tus funits fconns
                          wunits wconns gcols hunits hconns (some ob) lim.2 i u e
                    match toks.get? idx7 with
                    | some t =>
                      if SQL_OPS.contains t then
                        match parse_sql fuel toks (idx7 + 1) twa schema with
                        | .error e => .error e
                        | .ok (idx8, iue) =>
                          if t = "intersect" then .ok (idx8, base (some iue) none none)
                          else if t = "union" then .ok (idx8, base none (some iue) none)
                          else .ok (idx8, base none none (some iue))
                      else .ok (idx7, base none none none)
                    | none => .ok (idx7, base none none none)
  termination_by structural fuel => fuel

end

/-- Source `parse_condition(toks, start_idx, tables_with_alias, schema,
default_tables)`. -/
def parse_condition (fuel : Nat) (toks : List String) (startIdx : Nat)
    (twa : List (String × String)) (schema : PySchema)
    (dts : Option (List String)) :
    Except String (Nat × List CondUnit × List Conn) :=
  parse_condition_loop fuel toks startIdx twa schema dts [] []

end SqlEval

namespace SqlEval

/-! ## The tokenizer (process_sql.py, `tokenize`)

The NLTK `word_tokenize` word splitter is an external collaborator, so the
embedding is parametric in the splitting function `wt`; every theorem below
holds for an arbitrary splitter. -/

/-- The quote rewrite of `string.replace("\'", "\"")`. -/
def quoteMap (c : Char) : Char := if c = '\'' then '"' else c

/-- Scanner for `re.sub(r';\s*;+', '', s)`: a semicolon, optional
whitespace, then at least one more semicolon, removed; scanning resumes
after the match. -/
def pySubSemiRunsAux : Nat → List Char → List Char
  | 0, l => l
  | _ + 1, [] => []
  | fuel + 1, c :: rest =>
    if c = ';' then
      let ws := rest.takeWhile pyIsSpace
      let rest2 := rest.drop ws.length
      let semis := rest2.takeWhile (fun x => x = ';')
      if !semis.isEmpty then pySubSemiRunsAux fuel (rest2.drop semis.length)
      else c :: pySubSemiRunsAux fuel rest
    else c :: pySubSemiRunsAux fuel rest

def pySubSemiRuns (l : List Char) : List Char := pySubSemiRunsAux l.length l

/-- Scanner for `re.sub(r';\s*$', '', s)`: one semicolon followed only by
trailing whitespace is removed. -/
def pySubSemiEnd (l : List Char) : List Char :=
  let revl := l.reverse
  let ws := revl.takeWhile pyIsSpace
  let rest := revl.drop ws.length
  match rest with
  | ';' :: r => r.reverse
  | _ => l

/-- Python `s.replace(sub, rep)`: all non-overlapping occurrences, scanning
left to right. -/
def pyReplaceAux (sub rep : List Char) : Nat → List Char → List Char
  | 0, l => l
  | _ + 1, [] => []
  | fuel + 1, c :: rest =>
    if sub.isPrefixOf (c :: rest) && !sub.isEmpty then
      rep ++ pyReplaceAux sub rep fuel ((c :: rest).drop sub.length)
    else c :: pyReplaceAux sub rep fuel rest

def pyReplace (sub rep l : List Char) : List Char := pyReplaceAux sub rep l.length l

/-- Case-insensitive literal match against a lower-case pattern. -/
def matchCI (pat : List Char) (l : List Char) : Option (List Char) :=
  if (l.take pat.length).map pyCharLower = pat then some (l.drop pat.length)
  else none

/-- Regex `\s+`. -/
def matchWs (l : List Char) : Option (List Char) :=
  let ws := l.takeWhile pyIsSpace
  if ws.isEmpty then none else some (l.drop ws.length)

/-- Regex `\d+`, returning the digits. -/
def matchDigs (l : List Char) : Option (List Char × List Char) :=
  let ds := l.takeWhile Char.isDigit
  if ds.isEmpty then none else some (ds, l.drop ds.length)

/-- Prefix match of `FETCH\s+FIRST\s+(\d+)\s+ROWS?\s+ONLY` (ignoring case),
returning the captured digits and the remainder. -/
def matchFetch (l : List Char) : Option (List Char × List Char) :=
  (matchCI "fetch".toList l).bind fun l1 =>
  (matchWs l1).bind fun l2 =>
  (matchCI "first".toList l2).bind fun l3 =>
  (matchWs l3).bind fun l4 =>
  (matchDigs l4).bind fun dl =>
  (matchWs dl.2).bind fun l5 =>
  (matchCI "row".toList l5).bind fun l6 =>
  (matchWs (match l6 with
    | 's' :: r => r
    | 'S' :: r => r
    | r => r)).bind fun l7 =>
  (matchCI "only".toList l7).map fun l8 => (dl.1, l8)

/-- The FETCH FIRST rewrite: each match is replaced by ` LIMIT ` plus the
captured numeral. -/
def fetchScanAux : Nat → List Char → List Char
  | 0, l => l
  | _ + 1, [] => []
  | fuel + 1, c :: rest =>
    match matchFetch (c :: rest) with
    | some (digits, after) => (" LIMIT ".toList ++ digits) ++ fetchScanAux fuel after
    | none => c :: fetchScanAux fuel rest

def fetchScan (l : List Char) : List Char := fetchScanAux l.length l

/-- Indices of double-quote characters. -/
def quoteIdxs (l : List Char) : List Nat :=
  (l.enum.filter (fun p => p.2 = '"')).map Prod.fst

def pairUp : List Nat → List (Nat × Nat)
  | a :: b :: rest => (a, b) :: pairUp rest
  | _ => []

/-- The placeholder `"__val_{q1}_{q2}__"`. -/
def valKey (q1 q2 : Nat) : String :=
  "__val_" ++ toString q1 ++ "_" ++ toString q2 ++ "__"

/-- Replace every quoted span (given by its original index pair) with its
placeholder key, collecting the key-to-literal substitutions. -/
def protectQuotesGo (l : List Char) (pos : Nat) :
    List (Nat × Nat) → List Char × List (String × String)
  | [] => (l.drop pos, [])
  | (q1, q2) :: rest =>
    let seg := (l.drop pos).take (q1 - pos)
    let valStr := String.mk ((l.drop q1).take (q2 + 1 - q1))
    let key := valKey q1 q2
    let tail := protectQuotesGo l (q2 + 1) rest
    (seg ++ key.toList ++ tail.1, (key, valStr) :: tail.2)

def protectQuotes (l : List Char) : List Char × List (String × String) :=
  protectQuotesGo l 0 (pairUp (quoteIdxs l))

/-- The `!`/`>`/`<` + `=` merge loop, processing the `=` positions of the
original token list from right to left. -/
def mergeOps (toks : List String) : List String :=
  let eqIdxs := ((toks.enum.filter (fun p => p.2 = "=")).map Prod.fst).reverse
  eqIdxs.foldl
    (fun ts eqIdx =>
      if 0 < eqIdx then
        match ts.get? (eqIdx - 1) with
        | some preTok =>
          if preTok = "!" || preTok = ">" || preTok = "<" then
            ts.take (eqIdx - 1) ++ [preTok ++ "="] ++ ts.drop (eqIdx + 1)
          else ts
        | none => ts
      else ts)
    toks

/-- Lines 164-169 of `tokenize`: strip, drop trailing semicolons, rewrite
single quotes to double quotes. -/
def tokenizePrefix (s : String) : List Char :=
  (semiLoop (pyStrip s.toList)).map quoteMap

/-- The remainder of `tokenize` after the quote rewrite, parametric in the
word splitter `wt` (NLTK `word_tokenize` in the source). -/
def tokenizeRest (wt : String → List String) (l : List Char) :
    Except String (List String) :=
  let l := semiLoop l
  let l := pySubSemiRuns l
  let l := pySubSemiEnd l
  let l := pyReplace " is not null".toList " IS_NOT_NULL".toList l
  let l := pyReplace " IS NOT NULL".toList " IS_NOT_NULL".toList l
  let l := fetchScan l
  let qidxs := quoteIdxs l
  if qidxs.length % 2 ≠ 0 then .error "Unexpected quote"
  else
    let pr := protectQuotes l
    let toks := (wt (String.mk pr.1)).map pyLowerStr
    let toks := toks.map (fun tok =>
      if tok = "is_not_null" then "is not null"
      else
        match pyLookup pr.2 tok with
        | some v => v
        | none => tok)
    .ok (mergeOps toks)

/-- Source `tokenize(string)`: the quote-normalising prefix followed by the
rest of the pipeline. -/
def tokenizeWith (wt : String → List String) (s : String) :
    Except String (List String) :=
  tokenizeRest wt (tokenizePrefix s)

end SqlEval

namespace SqlEval

/-! ## Quote-style invariance of the tokenizer -/

/-- The input rewritten with every single quote replaced by a double quote,
as the claim describes the second input. -/
def replaceSingleQuotes (s : String) : String :=
  String.mk (s.toList.map quoteMap)

theorem toList_mk (l : List Char) : (String.mk l).toList = l := rfl

theorem quoteMap_isSpace (c : Char) : pyIsSpace (quoteMap c) = pyIsSpace c := by
  unfold quoteMap
  by_cases h : c = '\''
  · subst h
    decide
  · simp [h]

theorem quoteMap_idem (c : Char) : quoteMap (quoteMap c) = quoteMap c := by
  by_cases h : c = '\''
  · subst h
    decide
  · simp [quoteMap, h]

theorem quoteMap_semi (c : Char) : (quoteMap c = ';') ↔ (c = ';') := by
  by_cases h : c = '\''
  · subst h
    simp [quoteMap]
  · simp [quoteMap, h]

theorem pyStrip_map_quoteMap (l : List Char) :
    pyStrip (l.map quoteMap) = (pyStrip l).map quoteMap := by
  unfold pyStrip
  have hp : (pyIsSpace ∘ quoteMap) = pyIsSpace := by
    funext c
    exact quoteMap_isSpace c
  rw [List.dropWhile_map, hp, ← List.map_reverse, List.dropWhile_map, hp,
    ← List.map_reverse]

theorem map_quoteMap_idem (l : List Char) :
    (l.map quoteMap).map quoteMap = l.map quoteMap := by
  induction l with
  | nil => rfl
  | cons a as ih => simp [quoteMap_idem, ih]

theorem semiLoopAux_map_quoteMap (fuel : Nat) :
    ∀ l : List Char,
      semiLoopAux fuel (l.map quoteMap) = (semiLoopAux fuel l).map quoteMap := by
  induction fuel with
  | zero => intro l; rfl
  | succ f ih =>
    intro l
    simp only [semiLoopAux]
    by_cases h : l.getLast? = some ';'
    · have hm : (l.map quoteMap).getLast? = some ';' := by
        rw [List.getLast?_map, h]
        decide
      rw [if_pos hm, if_pos h, ← List.map_dropLast, pyStrip_map_quoteMap, ih]
    · have hm : ¬ (l.map quoteMap).getLast? = some ';' := by
        rw [List.getLast?_map]
        intro hc
        apply h
        cases hl : l.getLast? with
        | none =>
          rw [hl] at hc
          simp at hc
        | some c =>
          rw [hl] at hc
          simp only [Option.map_some', Option.some.injEq] at hc
          exact congrArg some ((quoteMap_semi c).mp hc)
      rw [if_neg hm, if_neg h]

theorem semiLoop_map_quoteMap (l : List Char) :
    semiLoop (l.map quoteMap) = (semiLoop l).map quoteMap := by
  unfold semiLoop
  rw [List.length_map, semiLoopAux_map_quoteMap]

end SqlEval

namespace SqlEval

/-! ## The SQL-text normalizer
(evaluation_module.py, `normalize_oracle_sql_for_comparison`) -/

/-- Scanner for `re.sub(r'\s+', ' ', s)`: every maximal whitespace run
becomes one space. -/
def wsCollapseAux : Nat → List Char → List Char
  | 0, l => l
  | _ + 1, [] => []
  | fuel + 1, c :: rest =>
    if pyIsSpace c then ' ' :: wsCollapseAux fuel (rest.dropWhile pyIsSpace)
    else c :: wsCollapseAux fuel rest

def wsCollapse (l : List Char) : List Char := wsCollapseAux l.length l

/-- Regex `\w` (ASCII fragment), for the word boundary in `\bGPTify\.`. -/
def isWordChar (c : Char) : Bool := c.isAlphanum || c = '_'

/-- Case-insensitive prefix match of `GPTify.`. -/
def matchGptify (l : List Char) : Bool :=
  (l.take 7).map pyCharLower = "gptify.".toList

/-- Scanner for `re.sub(r'\bGPTify\.', '', s, flags=re.IGNORECASE)`: the
boundary flag tracks whether the previous original character is a word
character. -/
def gptSubAux : Nat → Bool → List Char → List Char
  | 0, _, l => l
  | _ + 1, _, [] => []
  | fuel + 1, prevWord, c :: rest =>
    if !prevWord && matchGptify (c :: rest) then
      gptSubAux fuel false ((c :: rest).drop 7)
    else c :: gptSubAux fuel (isWordChar c) rest

def gptSub (l : List Char) : List Char := gptSubAux l.length false l

/-- Prefix match of `rownum\s*<=\s*\d+` (ignoring case). -/
def matchRownumTail (l : List Char) : Option (List Char) :=
  (matchCI "rownum".toList l).bind fun l1 =>
  (match l1.dropWhile pyIsSpace with
    | '<' :: '=' :: r => some r
    | _ => none).bind fun l3 =>
  (matchDigs (l3.dropWhile pyIsSpace)).map Prod.snd

/-- Does this suffix match `\s+WHERE\s+rownum\s*<=\s*\d+\s*$` in full? -/
def matchWhereRownumEnd (l : List Char) : Bool :=
  match matchWs l with
  | none => false
  | some l1 =>
    match matchCI "where".toList l1 with
    | none => false
    | some l2 =>
      match matchWs l2 with
      | none => false
      | some l3 =>
        match matchRownumTail l3 with
        | some rest => rest.dropWhile pyIsSpace = []
        | none => false

/-- Scanner for `re.sub(r'\s+WHERE\s+rownum\s*<=\s*\d+\s*$', '', s)`. -/
def rownumSub1Aux : Nat → List Char → List Char
  | 0, l => l
  | _ + 1, [] => []
  | fuel + 1, c :: rest =>
    if matchWhereRownumEnd (c :: rest) then []
    else c :: rownumSub1Aux fuel rest

def rownumSub1 (l : List Char) : List Char := rownumSub1Aux l.length l

/-- Prefix match of `\s+AND\s+rownum\s*<=\s*\d+` (ignoring case). -/
def matchAndRownum (l : List Char) : Option (List Char) :=
  (matchWs l).bind fun l1 =>
  (matchCI "and".toList l1).bind fun l2 =>
  (matchWs l2).bind fun l3 =>
  matchRownumTail l3

/-- Scanner for `re.sub(r'\s+AND\s+rownum\s*<=\s*\d+', '', s)`. -/
def rownumSub2Aux : Nat → List Char → List Char
  | 0, l => l
  | _ + 1, [] => []
  | fuel + 1, c :: rest =>
    match matchAndRownum (c :: rest) with
    | some after => rownumSub2Aux fuel after
    | none => c :: rownumSub2Aux fuel rest

def rownumSub2 (l : List Char) : List Char := rownumSub2Aux l.length l

/-- Prefix match of `rownum\s*<=\s*\d+\s+AND\s+` (ignoring case). -/
def matchRownumAnd (l : List Char) : Option (List Char) :=
  (matchRownumTail l).bind fun l1 =>
  (matchWs l1).bind fun l2 =>
  (matchCI "and".toList l2).bind fun l3 =>
  matchWs l3

/-- Scanner for `re.sub(r'rownum\s*<=\s*\d+\s+AND\s+', '', s)`. -/
def rownumSub3Aux : Nat → List Char → List Char
  | 0, l => l
  | _ + 1, [] => []
  | fuel + 1, c :: rest =>
    match matchRownumAnd (c :: rest) with
    | some after => rownumSub3Aux fuel after
    | none => c :: rownumSub3Aux fuel rest

def rownumSub3 (l : List Char) : List Char := rownumSub3Aux l.length l

/-- Source `normalize_oracle_sql_for_comparison(sql_str)`: strip, the empty
check, upper-casing, semicolon removal, whitespace collapsing, the schema
prefix removal, and the three pagination-predicate removals, in source
order. -/
def normalize_oracle_sql_for_comparison (s : String) : String :=
  let sql := pyStrip s.toList
  if sql.isEmpty then ""
  else
    let sql := pyUpper sql
    let sql := semiLoop sql
    let sql := pySubSemiRuns sql
    let sql := pySubSemiEnd sql
    let sql := pyStrip (wsCollapse sql)
    let sql := gptSub sql
    let sql := rownumSub1 sql
    let sql := rownumSub2 sql
    let sql := rownumSub3 sql
    String.mk sql

end SqlEval

namespace SqlEval

/-! ### Character-level facts about upper/lower casing -/

theorem char_eq_of_toNat_eq (c d : Char) (h : c.toNat = d.toNat) : c = d :=
  Char.ext (UInt32.ext h)

set_option maxRecDepth 2000 in
theorem charOfNat_toNat (n : Nat) (h : n.isValidChar) : (Char.ofNat n).toNat = n := by
  unfold Char.ofNat Char.toNat
  rw [dif_pos h]
  rfl

theorem toNat_of_isLower (c : Char) (h : c.isLower = true) :
    97 ≤ c.toNat ∧ c.toNat ≤ 122 := by
  simp [Char.isLower] at h
  exact ⟨h.1, h.2⟩

theorem isLower_eq_false_of_le (c : Char) (h2 : c.toNat ≤ 90) : c.isLower = false := by
  have h : ¬((97 : UInt32) ≤ c.val) := fun hle => by
    have h3 : 97 ≤ c.toNat := hle
    omega
  simp [Char.isLower, h]

theorem isUpper_eq_true_of (c : Char) (h1 : 65 ≤ c.toNat) (h2 : c.toNat ≤ 90) :
    c.isUpper = true := by
  have ha : (65 : UInt32) ≤ c.val := h1
  have hb : c.val ≤ (90 : UInt32) := h2
  simp [Char.isUpper, ha, hb]

theorem isUpper_eq_false_of_ge (c : Char) (h1 : 97 ≤ c.toNat) : c.isUpper = false := by
  have h : ¬(c.val ≤ (90 : UInt32)) := fun hle => by
    have h3 : c.toNat ≤ 90 := hle
    omega
  simp [Char.isUpper, h]

theorem pyCharUpper_toNat (c : Char) (h : c.isLower = true) :
    (pyCharUpper c).toNat = c.toNat - 32 := by
  obtain ⟨h1, h2⟩ := toNat_of_isLower c h
  unfold pyCharUpper
  rw [if_pos h]
  exact charOfNat_toNat _ (Or.inl (by omega))

theorem pyCharUpper_idem (c : Char) : pyCharUpper (pyCharUpper c) = pyCharUpper c := by
  by_cases h : c.isLower = true
  · obtain ⟨h1, h2⟩ := toNat_of_isLower c h
    have ht := pyCharUpper_toNat c h
    have hnl : (pyCharUpper c).isLower = false :=
      isLower_eq_false_of_le _ (by omega)
    clear ht h1 h2 h
    generalize pyCharUpper c = u at hnl ⊢
    unfold pyCharUpper
    rw [hnl]
    simp
  · have h' : c.isLower = false := by simpa using h
    unfold pyCharUpper
    simp [h']

theorem pyIsSpace_eq_false_of (c : Char) (h1 : 65 ≤ c.toNat) (h2 : c.toNat ≤ 122) :
    pyIsSpace c = false := by
  simp only [pyIsSpace, Bool.or_eq_false_iff, decide_eq_false_iff_not]
  refine ⟨⟨⟨⟨⟨?_, ?_⟩, ?_⟩, ?_⟩, ?_⟩, ?_⟩ <;>
    (intro h; subst h; exact absurd h1 (by decide))

theorem pyIsSpace_pyCharUpper (c : Char) : pyIsSpace (pyCharUpper c) = pyIsSpace c := by
  by_cases h : c.isLower = true
  · obtain ⟨h1, h2⟩ := toNat_of_isLower c h
    have ht := pyCharUpper_toNat c h
    rw [pyIsSpace_eq_false_of _ (by omega) (by omega),
        pyIsSpace_eq_false_of c (by omega) (by omega)]
  · have h' : c.isLower = false := by simpa using h
    unfold pyCharUpper
    rw [h']
    simp

theorem pyCharUpper_ne_semi (c : Char) (h : pyCharUpper c = ';') : c = ';' := by
  by_cases hl : c.isLower = true
  · exfalso
    obtain ⟨h1, h2⟩ := toNat_of_isLower c hl
    have ht := pyCharUpper_toNat c hl
    have : (pyCharUpper c).toNat = (';' : Char).toNat := by rw [h]
    rw [ht] at this
    have : (';' : Char).toNat = 59 := by decide
    omega
  · have h' : c.isLower = false := by simpa using hl
    unfold pyCharUpper at h
    rw [h'] at h
    simpa using h

theorem pyCharLower_pyCharUpper (c : Char) :
    pyCharLower (pyCharUpper c) = pyCharLower c := by
  by_cases h : c.isLower = true
  · obtain ⟨h1, h2⟩ := toNat_of_isLower c h
    have ht := pyCharUpper_toNat c h
    have hu : (pyCharUpper c).isUpper = true :=
      isUpper_eq_true_of _ (by omega) (by omega)
    have hcu : c.isUpper = false := isUpper_eq_false_of_ge c h1
    have hL : pyCharLower (pyCharUpper c) = Char.ofNat ((pyCharUpper c).toNat + 32) := by
      unfold pyCharLower
      rw [if_pos hu]
    have hR : pyCharLower c = c := by
      unfold pyCharLower
      rw [if_neg (by simp [hcu])]
    rw [hL, hR]
    apply char_eq_of_toNat_eq
    rw [charOfNat_toNat _ (Or.inl (by omega))]
    omega
  · have h' : c.isLower = false := by simpa using h
    unfold pyCharUpper
    rw [h']
    simp

theorem pyIsSpace_pyCharLower (c : Char) : pyIsSpace (pyCharLower c) = pyIsSpace c := by
  by_cases h : c.isUpper = true
  · have h1 : 65 ≤ c.toNat ∧ c.toNat ≤ 90 := by
      simp [Char.isUpper] at h
      exact ⟨h.1, h.2⟩
    have hL : pyCharLower c = Char.ofNat (c.toNat + 32) := by
      unfold pyCharLower
      rw [if_pos h]
    have hv : (Char.ofNat (c.toNat + 32)).toNat = c.toNat + 32 :=
      charOfNat_toNat _ (Or.inl (by omega))
    rw [hL, pyIsSpace_eq_false_of _ (by omega) (by omega),
        pyIsSpace_eq_false_of c (by omega) (by omega)]
  · have h' : c.isUpper = false := by simpa using h
    unfold pyCharLower
    rw [h']
    simp

theorem pyCharUpper_space : pyCharUpper ' ' = ' ' := by decide

theorem pyCharLower_space : pyCharLower ' ' = ' ' := by decide

end SqlEval

namespace SqlEval

/-! ### Structural lemmas about `pyStrip`, `pyUpper`, `wsCollapse` -/

theorem pyStrip_map (g : Char → Char) (hg : ∀ c, pyIsSpace (g c) = pyIsSpace c)
    (l : List Char) : pyStrip (l.map g) = (pyStrip l).map g := by
  unfold pyStrip
  have hp : (pyIsSpace ∘ g) = pyIsSpace := by
    funext c
    exact hg c
  rw [List.dropWhile_map, hp, ← List.map_reverse, List.dropWhile_map, hp,
    ← List.map_reverse]

theorem pyUpper_pyStrip (l : List Char) : pyUpper (pyStrip l) = pyStrip (pyUpper l) :=
  (pyStrip_map pyCharUpper pyIsSpace_pyCharUpper l).symm

theorem pyUpper_idem (l : List Char) : pyUpper (pyUpper l) = pyUpper l := by
  unfold pyUpper
  rw [List.map_map]
  exact List.map_congr_left fun c _ => pyCharUpper_idem c

theorem pyLower_pyUpper (l : List Char) :
    (pyUpper l).map pyCharLower = l.map pyCharLower := by
  unfold pyUpper
  rw [List.map_map]
  exact List.map_congr_left fun c _ => pyCharLower_pyCharUpper c

theorem semi_not_mem_pyUpper (l : List Char) (h : ';' ∉ l) : ';' ∉ pyUpper l := by
  intro hm
  obtain ⟨c, hc, hceq⟩ := List.mem_map.mp hm
  exact h (pyCharUpper_ne_semi c hceq ▸ hc)

theorem reverse_dropWhile_pre (p : Char → Bool) (x : List Char) :
    (x.reverse.dropWhile p).reverse <+: x :=
  List.reverse_suffix.mp (by simpa using @List.dropWhile_suffix Char x.reverse p)

theorem pyStrip_isSub (l : List Char) : pyStrip l <:+: l := by
  unfold pyStrip
  exact (reverse_dropWhile_pre pyIsSpace (l.dropWhile pyIsSpace)).isInfix.trans
    (List.dropWhile_suffix pyIsSpace).isInfix

theorem dropWhile_head_false {p : Char → Bool} :
    ∀ {l : List Char} {c rest}, l.dropWhile p = c :: rest → p c = false := by
  intro l
  induction l with
  | nil => intro c rest h; simp at h
  | cons a as ih =>
    intro c rest h
    rw [List.dropWhile_cons] at h
    by_cases ha : p a = true
    · rw [if_pos ha] at h
      exact ih h
    · have ha2 : p a = false := by simpa using ha
      rw [if_neg (by simp [ha2])] at h
      cases h
      exact ha2

theorem dropWhile_eq_self_of_head {p : Char → Bool} {l : List Char}
    (h : ∀ c rest, l = c :: rest → p c = false) : l.dropWhile p = l := by
  cases l with
  | nil => rfl
  | cons a as =>
    rw [List.dropWhile_cons, if_neg]
    simp [h a as rfl]

theorem pyStrip_idem (l : List Char) : pyStrip (pyStrip l) = pyStrip l := by
  have hL : (pyStrip l).dropWhile pyIsSpace = pyStrip l := by
    apply dropWhile_eq_self_of_head
    intro c rest h
    have hpre : pyStrip l <+: l.dropWhile pyIsSpace :=
      reverse_dropWhile_pre pyIsSpace (l.dropWhile pyIsSpace)
    rw [h] at hpre
    obtain ⟨t, ht⟩ := hpre
    exact dropWhile_head_false ht.symm
  have hR : (pyStrip l).reverse.dropWhile pyIsSpace = (pyStrip l).reverse := by
    apply dropWhile_eq_self_of_head
    intro c rest h
    unfold pyStrip at h
    simp only [List.reverse_reverse] at h
    exact dropWhile_head_false h
  generalize pyStrip l = y at hL hR ⊢
  unfold pyStrip
  rw [hL, hR]
  simp

end SqlEval

namespace SqlEval

theorem dropWhile_map_pres (g : Char → Char) (p : Char → Bool)
    (hg : ∀ c, p (g c) = p c) (l : List Char) :
    (l.map g).dropWhile p = (l.dropWhile p).map g := by
  have hp : (p ∘ g) = p := funext hg
  rw [List.dropWhile_map, hp]

theorem wsCollapseAux_nil : ∀ fuel, wsCollapseAux fuel [] = []
  | 0 => rfl
  | _ + 1 => rfl

theorem wsCollapseAux_map (g : Char → Char) (hg : ∀ c, pyIsSpace (g c) = pyIsSpace c)
    (hsp : g ' ' = ' ') :
    ∀ fuel l, wsCollapseAux fuel (l.map g) = (wsCollapseAux fuel l).map g := by
  intro fuel
  induction fuel with
  | zero => intro l; rfl
  | succ n ih =>
    intro l
    cases l with
    | nil => rfl
    | cons c rest =>
      show wsCollapseAux (n + 1) (g c :: rest.map g) = _
      simp only [wsCollapseAux, hg c]
      by_cases hc : pyIsSpace c = true
      · rw [if_pos hc, if_pos hc, dropWhile_map_pres g pyIsSpace hg, ih]
        simp [hsp]
      · have hc2 : pyIsSpace c = false := by simpa using hc
        rw [if_neg (by simp [hc2]), if_neg (by simp [hc2]), ih]
        simp

theorem wsCollapse_map (g : Char → Char) (hg : ∀ c, pyIsSpace (g c) = pyIsSpace c)
    (hsp : g ' ' = ' ') (l : List Char) :
    wsCollapse (l.map g) = (wsCollapse l).map g := by
  unfold wsCollapse
  rw [List.length_map]
  exact wsCollapseAux_map g hg hsp l.length l

theorem mem_wsCollapseAux :
    ∀ fuel (l : List Char) (c : Char), c ∈ wsCollapseAux fuel l → c ∈ l ∨ c = ' ' := by
  intro fuel
  induction fuel with
  | zero => intro l c h; exact Or.inl h
  | succ n ih =>
    intro l c h
    cases l with
    | nil => simp [wsCollapseAux] at h
    | cons d rest =>
      simp only [wsCollapseAux] at h
      by_cases hd : pyIsSpace d = true
      · rw [if_pos hd] at h
        rcases List.mem_cons.mp h with h1 | h1
        · exact Or.inr h1
        · rcases ih _ _ h1 with h2 | h2
          · exact Or.inl (List.mem_cons_of_mem d
              ((List.dropWhile_sublist pyIsSpace).subset h2))
          · exact Or.inr h2
      · rw [if_neg hd] at h
        rcases List.mem_cons.mp h with h1 | h1
        · exact Or.inl (h1 ▸ List.mem_cons_self d rest)
        · rcases ih _ _ h1 with h2 | h2
          · exact Or.inl (List.mem_cons_of_mem d h2)
          · exact Or.inr h2

/-- The invariant that `re.sub(r'\s+', ' ', ·)` establishes: every whitespace
character is a plain space and no space is followed by whitespace. -/
def wsOk : List Char → Bool
  | [] => true
  | [c] => !pyIsSpace c || c = ' '
  | c :: d :: rest => (!pyIsSpace c || (c = ' ' && !pyIsSpace d)) && wsOk (d :: rest)

theorem wsOk_cons {c : Char} {xs : List Char} (h : wsOk (c :: xs) = true) :
    wsOk xs = true := by
  cases xs with
  | nil => rfl
  | cons d rest =>
    simp only [wsOk, Bool.and_eq_true] at h
    exact h.2

theorem wsOk_append_right : ∀ (l r : List Char), wsOk (l ++ r) = true → wsOk r = true := by
  intro l
  induction l with
  | nil => intro r h; exact h
  | cons c l2 ih => intro r h; exact ih r (wsOk_cons h)

theorem wsOk_head_weaken {c : Char} {d : Char}
    (h : (!pyIsSpace c || (c = ' ' && !pyIsSpace d)) = true) :
    (!pyIsSpace c || c = ' ') = true := by
  rcases Bool.or_eq_true_iff.mp h with h1 | h1
  · exact Bool.or_eq_true_iff.mpr (Or.inl h1)
  · simp only [Bool.and_eq_true] at h1
    exact Bool.or_eq_true_iff.mpr (Or.inr h1.1)

theorem wsOk_append_left : ∀ (l r : List Char), wsOk (l ++ r) = true → wsOk l = true := by
  intro l
  induction l with
  | nil => intro r h; rfl
  | cons c l2 ih =>
    intro r h
    cases l2 with
    | nil =>
      show wsOk [c] = true
      cases r with
      | nil => exact h
      | cons d r2 =>
        have h2 : wsOk (c :: d :: r2) = true := h
        simp only [wsOk, Bool.and_eq_true] at h2
        simp only [wsOk]
        exact wsOk_head_weaken (d := d) (by simpa using h2.1)
    | cons d l3 =>
      have h2 : wsOk (c :: d :: (l3 ++ r)) = true := h
      simp only [wsOk, Bool.and_eq_true] at h2
      have htail : wsOk (d :: l3) = true := ih r h2.2
      simp only [wsOk, Bool.and_eq_true]
      exact ⟨by simpa using h2.1, htail⟩

theorem wsOk_infix {l l2 : List Char} (h : wsOk l = true) (hi : l2 <:+: l) :
    wsOk l2 = true := by
  obtain ⟨s, t, hst⟩ := hi
  have h1 : wsOk (l2 ++ t) = true := wsOk_append_right s (l2 ++ t) (by
    rw [← List.append_assoc, hst]
    exact h)
  exact wsOk_append_left l2 t h1

theorem wsCollapseAux_head (fuel : Nat) (d : Char) (m : List Char)
    (hd : pyIsSpace d = false) (hf : 1 ≤ fuel) :
    ∃ w, wsCollapseAux fuel (d :: m) = d :: w := by
  cases fuel with
  | zero => omega
  | succ n =>
    refine ⟨wsCollapseAux n m, ?_⟩
    simp [wsCollapseAux, hd]

theorem wsOk_wsCollapseAux :
    ∀ fuel (l : List Char), l.length ≤ fuel → wsOk (wsCollapseAux fuel l) = true := by
  intro fuel
  induction fuel with
  | zero =>
    intro l h
    have : l = [] := List.eq_nil_of_length_eq_zero (by omega)
    subst this
    rfl
  | succ n ih =>
    intro l hlen
    cases l with
    | nil => rfl
    | cons c rest =>
      simp only [wsCollapseAux]
      by_cases hc : pyIsSpace c = true
      · rw [if_pos hc]
        have hlen2 : (rest.dropWhile pyIsSpace).length ≤ n :=
          le_trans (List.dropWhile_sublist pyIsSpace).length_le
            (by simpa using Nat.le_of_succ_le_succ hlen)
        have hW := ih (rest.dropWhile pyIsSpace) hlen2
        cases hm : rest.dropWhile pyIsSpace with
        | nil =>
          rw [wsCollapseAux_nil]
          decide
        | cons d m =>
          have hd : pyIsSpace d = false := dropWhile_head_false hm
          have hf : 1 ≤ n := by
            have := congrArg List.length hm
            simp at this
            omega
          obtain ⟨w, hw⟩ := wsCollapseAux_head n d m hd hf
          rw [hw]
          rw [hm, hw] at hW
          simp only [wsOk, Bool.and_eq_true]
          refine ⟨by simp [hd], hW⟩
      · have hc2 : pyIsSpace c = false := by simpa using hc
        rw [if_neg hc]
        have hW := ih rest (by simpa using Nat.le_of_succ_le_succ hlen)
        cases hw : wsCollapseAux n rest with
        | nil => simp [wsOk, hc2]
        | cons e w =>
          rw [hw] at hW
          simp only [wsOk, Bool.and_eq_true]
          exact ⟨by simp [hc2], hW⟩

theorem wsCollapse_eq_self_of_wsOk : ∀ {l : List Char}, wsOk l = true → wsCollapse l = l := by
  intro l
  induction l with
  | nil => intro h; rfl
  | cons c rest ih =>
    intro h
    show wsCollapseAux (rest.length + 1) (c :: rest) = c :: rest
    simp only [wsCollapseAux]
    by_cases hc : pyIsSpace c = true
    · rw [if_pos hc]
      cases rest with
      | nil =>
        have hc' : c = ' ' := by
          simp only [wsOk, hc] at h
          simpa using h
        simp [wsCollapseAux_nil, hc']
      | cons d m =>
        simp only [wsOk, Bool.and_eq_true] at h
        have hhead := h.1
        rw [hc] at hhead
        simp only [Bool.not_true, Bool.false_or, Bool.and_eq_true] at hhead
        have hceq : c = ' ' := by simpa using hhead.1
        have hd : pyIsSpace d = false := by simpa using hhead.2
        have hdrop : (d :: m).dropWhile pyIsSpace = d :: m := by
          rw [List.dropWhile_cons, if_neg (by simp [hd])]
        rw [hdrop]
        have := ih h.2
        unfold wsCollapse at this
        rw [this, hceq]
    · rw [if_neg hc]
      have := ih (wsOk_cons h)
      unfold wsCollapse at this
      rw [this]

end SqlEval

namespace SqlEval

/-! ### Transferring matches through the normalizer stages -/

theorem prefix_wsCollapseAux :
    ∀ fuel (pat l : List Char), (∀ c ∈ pat, pyIsSpace c = false) →
      pat <+: wsCollapseAux fuel l → pat <+: l := by
  intro fuel
  induction fuel with
  | zero => intro pat l hws h; exact h
  | succ n ih =>
    intro pat l hws h
    cases l with
    | nil => exact h
    | cons c rest =>
      simp only [wsCollapseAux] at h
      by_cases hc : pyIsSpace c = true
      · rw [if_pos hc] at h
        cases pat with
        | nil => exact List.nil_prefix
        | cons p ps =>
          obtain ⟨t, ht⟩ := h
          have hp : p = ' ' := by
            have := congrArg (List.head? ·) ht
            simpa using this
          have : pyIsSpace p = false := hws p (List.mem_cons_self p ps)
          rw [hp] at this
          simp [pyIsSpace] at this
      · rw [if_neg hc] at h
        cases pat with
        | nil => exact List.nil_prefix
        | cons p ps =>
          obtain ⟨t, ht⟩ := h
          have hp : p = c := by
            have := congrArg (List.head? ·) ht
            simpa using this
          subst hp
          have hps : ps <+: wsCollapseAux n rest := ⟨t, by simpa using ht⟩
          exact (List.prefix_cons_inj p).mpr
            (ih ps rest (fun x hx => hws x (List.mem_cons_of_mem p hx)) hps)

theorem infix_wsCollapseAux (pat : List Char) (hne : pat ≠ [])
    (hws : ∀ c ∈ pat, pyIsSpace c = false) :
    ∀ fuel (l : List Char), pat <:+: wsCollapseAux fuel l → pat <:+: l := by
  intro fuel
  induction fuel with
  | zero => intro l h; exact h
  | succ n ih =>
    intro l h
    cases l with
    | nil => exact h
    | cons c rest =>
      simp only [wsCollapseAux] at h
      by_cases hc : pyIsSpace c = true
      · rw [if_pos hc] at h
        rcases List.infix_cons_iff.mp h with h1 | h1
        · cases pat with
          | nil => exact absurd rfl hne
          | cons p ps =>
            obtain ⟨t, ht⟩ := h1
            have hp : p = ' ' := by
              have := congrArg (List.head? ·) ht
              simpa using this
            have : pyIsSpace p = false := hws p (List.mem_cons_self p ps)
            rw [hp] at this
            simp [pyIsSpace] at this
        · have h2 := ih _ h1
          have h3 : pat <:+: rest :=
            h2.trans (List.dropWhile_suffix pyIsSpace).isInfix
          exact h3.trans (List.suffix_cons c rest).isInfix
      · rw [if_neg hc] at h
        rcases List.infix_cons_iff.mp h with h1 | h1
        · have h2 : pat <+: c :: rest := by
            cases pat with
            | nil => exact List.nil_prefix
            | cons p ps =>
              obtain ⟨t, ht⟩ := h1
              have hp : p = c := by
                have := congrArg (List.head? ·) ht
                simpa using this
              subst hp
              have hps : ps <+: wsCollapseAux n rest := ⟨t, by simpa using ht⟩
              exact (List.prefix_cons_inj p).mpr
                (prefix_wsCollapseAux n ps rest
                  (fun x hx => hws x (List.mem_cons_of_mem p hx)) hps)
          exact h2.isInfix
        · exact (ih _ h1).trans (List.suffix_cons c rest).isInfix

theorem infix_wsCollapse (pat : List Char) (hne : pat ≠ [])
    (hws : ∀ c ∈ pat, pyIsSpace c = false) {l : List Char}
    (h : pat <:+: wsCollapse l) : pat <:+: l :=
  infix_wsCollapseAux pat hne hws l.length l h

theorem semiLoopAux_no_semi (l : List Char) (h : ';' ∉ l) :
    ∀ fuel, semiLoopAux fuel l = l := by
  intro fuel
  cases fuel with
  | zero => rfl
  | succ n =>
    simp only [semiLoopAux]
    rw [if_neg]
    intro hlast
    exact h (List.mem_of_mem_getLast? hlast)

theorem pySubSemiRunsAux_no_semi :
    ∀ fuel (l : List Char), ';' ∉ l → pySubSemiRunsAux fuel l = l := by
  intro fuel
  induction fuel with
  | zero => intro l h; rfl
  | succ n ih =>
    intro l h
    cases l with
    | nil => rfl
    | cons c rest =>
      have hc : ¬(c = ';') := fun hc => h (hc ▸ List.mem_cons_self c rest)
      simp only [pySubSemiRunsAux]
      rw [if_neg hc, ih rest (fun hm => h (List.mem_cons_of_mem c hm))]

theorem pySubSemiEnd_no_semi (l : List Char) (h : ';' ∉ l) : pySubSemiEnd l = l := by
  unfold pySubSemiEnd
  dsimp only
  split
  · next r heq =>
    exfalso
    apply h
    have : ';' ∈ l.reverse.drop (l.reverse.takeWhile pyIsSpace).length := by
      rw [heq]
      exact List.mem_cons_self _ _
    exact List.mem_reverse.mp (List.mem_of_mem_drop this)
  · rfl

end SqlEval

namespace SqlEval

theorem matchCI_pat {pat l r : List Char} (h : matchCI pat l = some r) :
    pat <+: l.map pyCharLower := by
  unfold matchCI at h
  split at h
  · next hc =>
    rw [← hc]
    exact (List.take_prefix pat.length l).map pyCharLower
  · exact absurd h (by simp)

theorem matchCI_suffix {pat l r : List Char} (h : matchCI pat l = some r) : r <:+ l := by
  unfold matchCI at h
  split at h
  · cases h
    exact List.drop_suffix pat.length l
  · exact absurd h (by simp)

theorem matchWs_suffix {l r : List Char} (h : matchWs l = some r) : r <:+ l := by
  unfold matchWs at h
  dsimp only at h
  split at h
  · exact absurd h (by simp)
  · cases h
    exact List.drop_suffix _ l

theorem matchRownumTail_pat {l r : List Char} (h : matchRownumTail l = some r) :
    "rownum".toList <+: l.map pyCharLower := by
  unfold matchRownumTail at h
  cases hb : matchCI "rownum".toList l with
  | none => rw [hb] at h; simp at h
  | some l1 => exact matchCI_pat hb

theorem infix_lower_of_prefix_suffix {pat x y : List Char}
    (h1 : pat <+: x.map pyCharLower) (h2 : x <:+ y) :
    pat <:+: y.map pyCharLower :=
  h1.isInfix.trans (h2.map pyCharLower).isInfix

theorem matchWhereRownumEnd_found {l : List Char} (h : matchWhereRownumEnd l = true) :
    "rownum".toList <:+: l.map pyCharLower := by
  unfold matchWhereRownumEnd at h
  split at h
  · simp at h
  · rename_i l1 h1
    split at h
    · simp at h
    · rename_i l2 h2
      split at h
      · simp at h
      · rename_i l3 h3
        split at h
        · rename_i rest h4
          have hsuf : l3 <:+ l :=
            ((matchWs_suffix h3).trans (matchCI_suffix h2)).trans (matchWs_suffix h1)
          exact infix_lower_of_prefix_suffix (matchRownumTail_pat h4) hsuf
        · simp at h

theorem matchAndRownum_found {l r : List Char} (h : matchAndRownum l = some r) :
    "rownum".toList <:+: l.map pyCharLower := by
  unfold matchAndRownum at h
  cases h1 : matchWs l with
  | none => rw [h1] at h; simp at h
  | some l1 =>
    simp only [h1, Option.some_bind] at h
    cases h2 : matchCI "and".toList l1 with
    | none => rw [h2] at h; simp at h
    | some l2 =>
      simp only [h2, Option.some_bind] at h
      cases h3 : matchWs l2 with
      | none => rw [h3] at h; simp at h
      | some l3 =>
        simp only [h3, Option.some_bind] at h
        have hsuf : l3 <:+ l :=
          ((matchWs_suffix h3).trans (matchCI_suffix h2)).trans (matchWs_suffix h1)
        exact infix_lower_of_prefix_suffix (matchRownumTail_pat h) hsuf

theorem matchRownumAnd_pat {l r : List Char} (h : matchRownumAnd l = some r) :
    "rownum".toList <+: l.map pyCharLower := by
  unfold matchRownumAnd at h
  cases hb : matchRownumTail l with
  | none => rw [hb] at h; simp at h
  | some l1 => exact matchRownumTail_pat hb

theorem matchGptify_pat {l : List Char} (h : matchGptify l = true) :
    "gptify.".toList <+: l.map pyCharLower := by
  unfold matchGptify at h
  have h2 : "gptify.".toList = (l.map pyCharLower).take 7 := by
    rw [← List.map_take]
    exact (of_decide_eq_true h).symm
  rw [h2]
  exact List.take_prefix 7 (l.map pyCharLower)

theorem infix_of_infix_tail {pat : List Char} {c : Char} {rest : List Char}
    (h : pat <:+: rest.map pyCharLower) :
    pat <:+: (c :: rest).map pyCharLower :=
  h.trans (List.suffix_cons (pyCharLower c) (rest.map pyCharLower)).isInfix

theorem gptSubAux_no_match :
    ∀ fuel (b : Bool) (l : List Char),
      ¬("gptify.".toList <:+: l.map pyCharLower) → gptSubAux fuel b l = l := by
  intro fuel
  induction fuel with
  | zero => intro b l h; rfl
  | succ n ih =>
    intro b l h
    cases l with
    | nil => rfl
    | cons c rest =>
      have hmg : matchGptify (c :: rest) = false := by
        by_contra hh
        have : matchGptify (c :: rest) = true := by simpa using hh
        exact h (matchGptify_pat this).isInfix
      simp only [gptSubAux, hmg, Bool.and_false, Bool.false_eq_true, if_false]
      rw [ih (isWordChar c) rest (fun hi => h (infix_of_infix_tail hi))]

theorem gptSub_no_match {l : List Char}
    (h : ¬("gptify.".toList <:+: l.map pyCharLower)) : gptSub l = l :=
  gptSubAux_no_match l.length false l h

theorem rownumSub1Aux_no_match :
    ∀ fuel (l : List Char),
      ¬("rownum".toList <:+: l.map pyCharLower) → rownumSub1Aux fuel l = l := by
  intro fuel
  induction fuel with
  | zero => intro l h; rfl
  | succ n ih =>
    intro l h
    cases l with
    | nil => rfl
    | cons c rest =>
      have hm : matchWhereRownumEnd (c :: rest) = false := by
        by_contra hh
        have : matchWhereRownumEnd (c :: rest) = true := by simpa using hh
        exact h (matchWhereRownumEnd_found this)
      simp only [rownumSub1Aux, hm, Bool.false_eq_true, if_false]
      rw [ih rest (fun hi => h (infix_of_infix_tail hi))]

theorem rownumSub1_no_match {l : List Char}
    (h : ¬("rownum".toList <:+: l.map pyCharLower)) : rownumSub1 l = l :=
  rownumSub1Aux_no_match l.length l h

theorem rownumSub2Aux_no_match :
    ∀ fuel (l : List Char),
      ¬("rownum".toList <:+: l.map pyCharLower) → rownumSub2Aux fuel l = l := by
  intro fuel
  induction fuel with
  | zero => intro l h; rfl
  | succ n ih =>
    intro l h
    cases l with
    | nil => rfl
    | cons c rest =>
      cases hma : matchAndRownum (c :: rest) with
      | some after => exact absurd (matchAndRownum_found hma) h
      | none =>
        simp only [rownumSub2Aux, hma]
        rw [ih rest (fun hi => h (infix_of_infix_tail hi))]

theorem rownumSub2_no_match {l : List Char}
    (h : ¬("rownum".toList <:+: l.map pyCharLower)) : rownumSub2 l = l :=
  rownumSub2Aux_no_match l.length l h

theorem rownumSub3Aux_no_match :
    ∀ fuel (l : List Char),
      ¬("rownum".toList <:+: l.map pyCharLower) → rownumSub3Aux fuel l = l := by
  intro fuel
  induction fuel with
  | zero => intro l h; rfl
  | succ n ih =>
    intro l h
    cases l with
    | nil => rfl
    | cons c rest =>
      cases hma : matchRownumAnd (c :: rest) with
      | some after => exact absurd (matchRownumAnd_pat hma).isInfix h
      | none =>
        simp only [rownumSub3Aux, hma]
        rw [ih rest (fun hi => h (infix_of_infix_tail hi))]

theorem rownumSub3_no_match {l : List Char}
    (h : ¬("rownum".toList <:+: l.map pyCharLower)) : rownumSub3 l = l :=
  rownumSub3Aux_no_match l.length l h

end SqlEval

namespace SqlEval

theorem semiLoop_no_semi (l : List Char) (h : ';' ∉ l) : semiLoop l = l :=
  semiLoopAux_no_semi l h l.length

theorem pySubSemiRuns_no_semi (l : List Char) (h : ';' ∉ l) : pySubSemiRuns l = l :=
  pySubSemiRunsAux_no_semi l.length l h

theorem pyUpper_wsCollapse (l : List Char) :
    pyUpper (wsCollapse l) = wsCollapse (pyUpper l) := by
  unfold pyUpper
  exact (wsCollapse_map pyCharUpper pyIsSpace_pyCharUpper pyCharUpper_space l).symm

theorem no_pat_in_processed (pat : List Char) (hne : pat ≠ [])
    (hws : ∀ c ∈ pat, pyIsSpace c = false) (s : List Char)
    (hpat : ¬(pat <:+: s.map pyCharLower)) :
    ¬(pat <:+: (pyStrip (wsCollapse (pyUpper (pyStrip s)))).map pyCharLower) := by
  intro h
  apply hpat
  have h1 : (pyStrip (wsCollapse (pyUpper (pyStrip s)))).map pyCharLower <:+:
      (wsCollapse (pyUpper (pyStrip s))).map pyCharLower :=
    (pyStrip_isSub _).map pyCharLower
  have h2 := h.trans h1
  rw [← wsCollapse_map pyCharLower pyIsSpace_pyCharLower pyCharLower_space] at h2
  have h3 := infix_wsCollapse pat hne hws h2
  rw [pyLower_pyUpper] at h3
  exact h3.trans ((pyStrip_isSub s).map pyCharLower)

theorem normalize_closed_form (s : String)
    (hS : ';' ∉ s.toList)
    (hR : ¬("rownum".toList <:+: s.toList.map pyCharLower))
    (hG : ¬("gptify.".toList <:+: s.toList.map pyCharLower)) :
    normalize_oracle_sql_for_comparison s =
      String.mk (pyStrip (wsCollapse (pyUpper (pyStrip s.toList)))) := by
  unfold normalize_oracle_sql_for_comparison
  dsimp only
  by_cases he : (pyStrip s.toList).isEmpty = true
  · rw [if_pos he]
    have hz : pyStrip s.toList = [] := by simpa [List.isEmpty_iff] using he
    rw [hz]
    rfl
  · rw [if_neg he]
    have hSz : ';' ∉ pyStrip s.toList := fun hm => hS ((pyStrip_isSub s.toList).subset hm)
    have hSu : ';' ∉ pyUpper (pyStrip s.toList) := semi_not_mem_pyUpper _ hSz
    rw [semiLoop_no_semi _ hSu, pySubSemiRuns_no_semi _ hSu, pySubSemiEnd_no_semi _ hSu,
      gptSub_no_match (no_pat_in_processed "gptify.".toList (by decide) (by decide)
        s.toList hG),
      rownumSub1_no_match (no_pat_in_processed "rownum".toList (by decide) (by decide)
        s.toList hR),
      rownumSub2_no_match (no_pat_in_processed "rownum".toList (by decide) (by decide)
        s.toList hR),
      rownumSub3_no_match (no_pat_in_processed "rownum".toList (by decide) (by decide)
        s.toList hR)]

theorem normalize_fixed (y : List Char)
    (hS : ';' ∉ y)
    (hR : ¬("rownum".toList <:+: y.map pyCharLower))
    (hG : ¬("gptify.".toList <:+: y.map pyCharLower))
    (h1 : pyStrip y = y) (h2 : pyUpper y = y) (h3 : wsCollapse y = y) :
    normalize_oracle_sql_for_comparison (String.mk y) = String.mk y := by
  have hcf := normalize_closed_form (String.mk y) hS hR hG
  rw [toList_mk] at hcf
  rw [hcf, h1, h2, h3, h1]

theorem normalize_idem_aux (s : String)
    (hS : ';' ∉ s.toList)
    (hR : ¬("rownum".toList <:+: s.toList.map pyCharLower))
    (hG : ¬("gptify.".toList <:+: s.toList.map pyCharLower)) :
    normalize_oracle_sql_for_comparison (normalize_oracle_sql_for_comparison s) =
      normalize_oracle_sql_for_comparison s := by
  have hcf := normalize_closed_form s hS hR hG
  have hSz : ';' ∉ pyStrip s.toList := fun hm => hS ((pyStrip_isSub s.toList).subset hm)
  have hSu : ';' ∉ pyUpper (pyStrip s.toList) := semi_not_mem_pyUpper _ hSz
  have hSy : ';' ∉ pyStrip (wsCollapse (pyUpper (pyStrip s.toList))) := by
    intro hm
    rcases mem_wsCollapseAux _ _ _ ((pyStrip_isSub _).subset hm) with h1 | h1
    · exact hSu h1
    · exact absurd h1 (by decide)
  have hRy := no_pat_in_processed "rownum".toList (by decide) (by decide) s.toList hR
  have hGy := no_pat_in_processed "gptify.".toList (by decide) (by decide) s.toList hG
  have hstrip : pyStrip (pyStrip (wsCollapse (pyUpper (pyStrip s.toList)))) =
      pyStrip (wsCollapse (pyUpper (pyStrip s.toList))) := pyStrip_idem _
  have hupper : pyUpper (pyStrip (wsCollapse (pyUpper (pyStrip s.toList)))) =
      pyStrip (wsCollapse (pyUpper (pyStrip s.toList))) := by
    rw [pyUpper_pyStrip, pyUpper_wsCollapse, pyUpper_idem]
  have hwsok : wsOk (pyStrip (wsCollapse (pyUpper (pyStrip s.toList)))) = true :=
    wsOk_infix (wsOk_wsCollapseAux _ _ (le_refl _)) (pyStrip_isSub _)
  have hws2 : wsCollapse (pyStrip (wsCollapse (pyUpper (pyStrip s.toList)))) =
      pyStrip (wsCollapse (pyUpper (pyStrip s.toList))) :=
    wsCollapse_eq_self_of_wsOk hwsok
  rw [hcf]
  exact normalize_fixed _ hSy hRy hGy hstrip hupper hws2

end SqlEval

namespace SqlEval

/-! ## Execution-result comparison
(`eval_exec_match`, evaluation.py 1213-1280, and `compare_execution_results`,
evaluation_module.py 228-266).  Executing a query either fails (`none`: lost
connection, rejected statement, any exception — all `return False` paths) or
yields a list of rows fetched as tuples of Python values: SQL NULL arrives
as `None`, numbers and strings as themselves.  Both functions compare row
counts and then sort the two row lists with Python `sorted` and compare
them; the sort and the comparison sit inside the enclosing `try`, so a
`TypeError` raised by `sorted` when `<` meets a `None` or a number/string
mix is swallowed by the outer `except` and the function returns `False`. -/

/-- A cell of a fetched row: SQL NULL (`None`), a number, or a string. -/
inductive PyCell where
  | null
  | int (n : Int)
  | str (s : String)
deriving DecidableEq, Repr

/-- Python `==` on cells: total, `None == None` is `True`, cross-type is
`False`, never raises. -/
def pyCellEq : PyCell → PyCell → Bool
  | .null, .null => true
  | .int a, .int b => a = b
  | .str a, .str b => a = b
  | _, _ => false

/-- Python `<` on cells: raises `TypeError` whenever either side is `None`
or the types differ. -/
def pyCellLt : PyCell → PyCell → Except String Bool
  | .int a, .int b => .ok (decide (a < b))
  | .str a, .str b => .ok (decide (a < b))
  | _, _ => .error "TypeError: unorderable types"

/-- Python `<` on row tuples: skip the longest common prefix under `==`
(which never raises), then decide by `<` at the first difference — raising
there if the cells are unorderable; a pure prefix is smaller. -/
def pyRowLt : List PyCell → List PyCell → Except String Bool
  | [], [] => .ok false
  | [], _ :: _ => .ok true
  | _ :: _, [] => .ok false
  | a :: as, b :: bs =>
    if pyCellEq a b then pyRowLt as bs else pyCellLt a b

/-- Stable insertion of a row into a sorted list, propagating a comparison
`TypeError`. -/
def insertRowE (r : List PyCell) : List (List PyCell) →
    Except String (List (List PyCell))
  | [] => .ok [r]
  | x :: xs =>
    match pyRowLt x r with
    | .error e => .error e
    | .ok true =>
      match insertRowE r xs with
      | .error e => .error e
      | .ok rest => .ok (x :: rest)
    | .ok false => .ok (r :: x :: xs)

/-- Python `sorted` on a list of rows: any `TypeError` raised by an element
comparison propagates (the choice of comparison schedule cannot matter for
the theorems below: on fully orderable inputs every correct sort returns
the same list, and the counterexample has two rows, which any sort must
compare). -/
def sortRowsE : List (List PyCell) → Except String (List (List PyCell))
  | [] => .ok []
  | r :: rs =>
    match sortRowsE rs with
    | .error e => .error e
    | .ok s => insertRowE r s

/-- Source `eval_exec_match`: `False` when either execution fails, otherwise
row-count check, then comparison of the sorted row lists — with the sort's
`TypeError` caught by the outer handler and turned into `False`. -/
def eval_exec_match (pRes gRes : Option (List (List PyCell))) : Bool :=
  match pRes with
  | none => false
  | some p =>
    match gRes with
    | none => false
    | some g =>
      if p.length ≠ g.length then false
      else
        match sortRowsE p, sortRowsE g with
        | .ok ps, .ok gs => decide (ps = gs)
        | _, _ => false

/-- Source `compare_execution_results`: identical comparison logic (generated
side checked first, then target side), the whole body inside one `try`. -/
def compare_execution_results (genRes tgtRes : Option (List (List PyCell))) : Bool :=
  match genRes with
  | none => false
  | some g =>
    match tgtRes with
    | none => false
    | some t =>
      if g.length ≠ t.length then false
      else
        match sortRowsE g, sortRowsE t with
        | .ok gs, .ok ts => decide (gs = ts)
        | _, _ => false

/-! Pure counterpart on rows of integers: on NULL-free homogeneous numeric
results every cell comparison succeeds, and the sort computes the unique
sorted arrangement under the total lexicographic order `rowLe`. -/

/-- Non-strict lexicographic order on integer rows. -/
def rowLe : List Int → List Int → Bool
  | [], _ => true
  | _ :: _, [] => false
  | a :: as, b :: bs => if a < b then true else if b < a then false else rowLe as bs

/-- Strict lexicographic order on integer rows (what `pyRowLt` computes on
embedded integer cells). -/
def rowLtB : List Int → List Int → Bool
  | [], [] => false
  | [], _ :: _ => true
  | _ :: _, [] => false
  | a :: as, b :: bs => if a = b then rowLtB as bs else decide (a < b)

def insertRowB (r : List Int) : List (List Int) → List (List Int)
  | [] => [r]
  | x :: xs => if rowLtB x r then x :: insertRowB r xs else r :: x :: xs

def sortRowsB : List (List Int) → List (List Int)
  | [] => []
  | r :: rs => insertRowB r (sortRowsB rs)

/-- Embedding of an integer row as a row of cells. -/
def cellEmb (r : List Int) : List PyCell := r.map PyCell.int

theorem pyRowLt_emb : ∀ a b : List Int,
    pyRowLt (cellEmb a) (cellEmb b) = .ok (rowLtB a b) := by
  intro a
  induction a with
  | nil => intro b; cases b <;> simp [cellEmb, pyRowLt, rowLtB]
  | cons x as ih =>
    intro b
    cases b with
    | nil => simp [cellEmb, pyRowLt, rowLtB]
    | cons y bs =>
      simp only [cellEmb, List.map_cons, pyRowLt, pyCellEq, pyCellLt, rowLtB]
      by_cases h : x = y
      · simpa [h] using ih bs
      · simp [h]

theorem insertRowE_emb (r : List Int) : ∀ l : List (List Int),
    insertRowE (cellEmb r) (l.map cellEmb) = .ok ((insertRowB r l).map cellEmb) := by
  intro l
  induction l with
  | nil => simp [insertRowE, insertRowB]
  | cons x xs ih =>
    simp only [List.map_cons, insertRowE, pyRowLt_emb, insertRowB]
    by_cases h : rowLtB x r = true
    · simp [h, ih]
    · simp [h]

theorem sortRowsE_emb : ∀ p : List (List Int),
    sortRowsE (p.map cellEmb) = .ok ((sortRowsB p).map cellEmb) := by
  intro p
  induction p with
  | nil => simp [sortRowsE, sortRowsB]
  | cons r rs ih => simp [sortRowsE, sortRowsB, ih, insertRowE_emb]

theorem rowLe_cons_iff (x y : Int) (as bs : List Int) :
    rowLe (x :: as) (y :: bs) = true ↔ x < y ∨ (x = y ∧ rowLe as bs = true) := by
  simp only [rowLe]
  split_ifs with h1 h2
  · simp [h1]
  · constructor
    · intro h; exact absurd h (by simp)
    · rintro (h | ⟨h, _⟩) <;> omega
  · have hxy : x = y := by omega
    subst hxy
    simp

theorem rowLe_total : ∀ a b : List Int, (rowLe a b || rowLe b a) = true := by
  intro a
  induction a with
  | nil => intro b; simp [rowLe]
  | cons x as ih =>
    intro b
    cases b with
    | nil => simp [rowLe]
    | cons y bs =>
      rcases lt_trichotomy x y with h | h | h
      · simp [rowLe_cons_iff, h]
      · subst h
        rcases Bool.or_eq_true_iff.mp (ih bs) with h2 | h2 <;>
          simp [rowLe_cons_iff, h2]
      · simp [rowLe_cons_iff, h]

theorem rowLe_trans : ∀ a b c : List Int,
    rowLe a b = true → rowLe b c = true → rowLe a c = true := by
  intro a
  induction a with
  | nil => intro b c h1 h2; rfl
  | cons x as ih =>
    intro b c h1 h2
    cases b with
    | nil => simp [rowLe] at h1
    | cons y bs =>
      cases c with
      | nil => simp [rowLe] at h2
      | cons z cs =>
        rw [rowLe_cons_iff] at h1 h2 ⊢
        rcases h1 with h1 | ⟨h1, h1r⟩ <;> rcases h2 with h2 | ⟨h2, h2r⟩
        · exact Or.inl (by omega)
        · exact Or.inl (by omega)
        · exact Or.inl (by omega)
        · exact Or.inr ⟨by omega, ih bs cs h1r h2r⟩

theorem rowLe_antisymm : ∀ a b : List Int,
    rowLe a b = true → rowLe b a = true → a = b := by
  intro a
  induction a with
  | nil =>
    intro b h1 h2
    cases b with
    | nil => rfl
    | cons y bs => simp [rowLe] at h2
  | cons x as ih =>
    intro b h1 h2
    cases b with
    | nil => simp [rowLe] at h1
    | cons y bs =>
      rw [rowLe_cons_iff] at h1 h2
      rcases h1 with h1 | ⟨h1, h1r⟩ <;> rcases h2 with h2 | ⟨h2, h2r⟩
      · omega
      · omega
      · omega
      · rw [h1, ih bs h1r h2r]

instance : IsAntisymm (List Int) (fun a b => rowLe a b = true) :=
  ⟨rowLe_antisymm⟩

theorem rowLtB_not_rowLe : ∀ a b : List Int, rowLtB a b = !rowLe b a := by
  intro a
  induction a with
  | nil => intro b; cases b <;> simp [rowLtB, rowLe]
  | cons x as ih =>
    intro b
    cases b with
    | nil => simp [rowLtB, rowLe]
    | cons y bs =>
      simp only [rowLtB, rowLe]
      by_cases h : x = y
      · subst h
        simp [ih bs]
      · by_cases h2 : x < y
        · have hyx : ¬ y < x := by omega
          simp [h, h2, hyx]
        · have hyx : y < x := by omega
          simp [h, h2, hyx]

theorem insertRowB_perm (r : List Int) : ∀ l : List (List Int),
    (insertRowB r l).Perm (r :: l) := by
  intro l
  induction l with
  | nil => exact List.Perm.refl _
  | cons x xs ih =>
    simp only [insertRowB]
    by_cases h : rowLtB x r = true
    · rw [if_pos h]
      exact (ih.cons x).trans (List.Perm.swap r x xs)
    · rw [if_neg h]

theorem insertRowB_sorted (r : List Int) : ∀ l : List (List Int),
    List.Sorted (fun a b => rowLe a b = true) l →
    List.Sorted (fun a b => rowLe a b = true) (insertRowB r l) := by
  intro l
  induction l with
  | nil => intro h; simp [insertRowB]
  | cons x xs ih =>
    intro h
    rw [List.sorted_cons] at h
    obtain ⟨hx, hxs⟩ := h
    simp only [insertRowB]
    by_cases hc : rowLtB x r = true
    · rw [if_pos hc, List.sorted_cons]
      refine ⟨?_, ih hxs⟩
      intro b hb
      have hxr : rowLe x r = true := by
        rw [rowLtB_not_rowLe] at hc
        rcases Bool.or_eq_true_iff.mp (rowLe_total x r) with h2 | h2
        · exact h2
        · rw [h2] at hc; exact absurd hc (by simp)
      rcases List.mem_cons.mp ((insertRowB_perm r xs).mem_iff.mp hb) with hb2 | hb2
      · rw [hb2]; exact hxr
      · exact hx b hb2
    · rw [if_neg hc, List.sorted_cons]
      have hrx : rowLe r x = true := by
        rw [rowLtB_not_rowLe] at hc
        cases h2 : rowLe r x with
        | true => rfl
        | false => rw [h2] at hc; exact absurd hc (by simp)
      refine ⟨?_, List.sorted_cons.mpr ⟨hx, hxs⟩⟩
      intro b hb
      rcases List.mem_cons.mp hb with hb2 | hb2
      · rw [hb2]; exact hrx
      · exact rowLe_trans r x b hrx (hx b hb2)

theorem sortRowsB_perm : ∀ l : List (List Int), (sortRowsB l).Perm l := by
  intro l
  induction l with
  | nil => exact List.Perm.refl _
  | cons r rs ih =>
    simp only [sortRowsB]
    exact (insertRowB_perm r (sortRowsB rs)).trans (ih.cons r)

theorem sortRowsB_sorted : ∀ l : List (List Int),
    List.Sorted (fun a b => rowLe a b = true) (sortRowsB l) := by
  intro l
  induction l with
  | nil => simp [sortRowsB]
  | cons r rs ih => exact insertRowB_sorted r (sortRowsB rs) ih

theorem sortRowsB_eq_iff_perm (p g : List (List Int)) :
    sortRowsB p = sortRowsB g ↔ p.Perm g := by
  constructor
  · intro h
    have h2 := sortRowsB_perm g
    rw [← h] at h2
    exact (sortRowsB_perm p).symm.trans h2
  · intro h
    have hperm : (sortRowsB p).Perm (sortRowsB g) :=
      (sortRowsB_perm p).trans (h.trans (sortRowsB_perm g).symm)
    exact List.eq_of_perm_of_sorted hperm (sortRowsB_sorted p) (sortRowsB_sorted g)

theorem cellEmb_injective : Function.Injective cellEmb := by
  intro a b h
  have hint : Function.Injective PyCell.int := by
    intro x y hxy
    cases hxy
    rfl
  exact List.map_injective_iff.mpr hint h

theorem rowsEmb_injective : Function.Injective (List.map cellEmb) :=
  List.map_injective_iff.mpr cellEmb_injective

end SqlEval

namespace SqlEval

/-! ## The ten claims -/

theorem tokenizePrefix_quotes (s : String) :
    tokenizePrefix (replaceSingleQuotes s) = tokenizePrefix s := by
  unfold tokenizePrefix replaceSingleQuotes
  rw [toList_mk, pyStrip_map_quoteMap, semiLoop_map_quoteMap, map_quoteMap_idem]

/-- C1: `get_scores(count, pred_total, label_total)` returns the
`(None, None, None)` sentinel when both totals are zero, `(0, 0, 0)` when the
totals differ, `(1, 1, 1)` when the matched count equals the (equal) totals,
`(0, 0, 0)` otherwise; accuracy, recall and F1 are always equal and binary. -/
theorem C1_get_scores_spec (count predTotal labelTotal : Nat) :
    (predTotal = 0 ∧ labelTotal = 0 →
       get_scores count predTotal labelTotal = none) ∧
    (predTotal ≠ labelTotal →
       get_scores count predTotal labelTotal = some (0, 0, 0)) ∧
    (predTotal = labelTotal → ¬(predTotal = 0 ∧ labelTotal = 0) →
       count = predTotal →
       get_scores count predTotal labelTotal = some (1, 1, 1)) ∧
    (predTotal = labelTotal → ¬(predTotal = 0 ∧ labelTotal = 0) →
       count ≠ predTotal →
       get_scores count predTotal labelTotal = some (0, 0, 0)) ∧
    (∀ a r f, get_scores count predTotal labelTotal = some (a, r, f) →
       a = r ∧ r = f ∧ (a = 0 ∨ a = 1)) := by
  unfold get_scores
  refine ⟨?_, ?_, ?_, ?_, ?_⟩
  · intro h
    rw [if_pos h]
  · intro h
    rw [if_neg (by omega), if_pos h]
  · intro h1 h2 h3
    rw [if_neg h2, if_neg (by omega), if_pos h3]
  · intro h1 h2 h3
    rw [if_neg h2, if_neg (by omega), if_neg h3]
  · intro a r f heq
    split_ifs at heq <;> (cases heq; constructor <;> simp)

theorem C1_witness :
    get_scores 0 0 0 = none ∧ get_scores 1 1 2 = some (0, 0, 0) ∧
    get_scores 3 3 3 = some (1, 1, 1) ∧ get_scores 1 3 3 = some (0, 0, 0) :=
  ⟨(C1_get_scores_spec 0 0 0).1 ⟨rfl, rfl⟩,
   (C1_get_scores_spec 1 1 2).2.1 (by decide),
   (C1_get_scores_spec 3 3 3).2.2.1 rfl (by decide) rfl,
   (C1_get_scores_spec 1 3 3).2.2.2.1 rfl (by decide) (by decide)⟩

/-- C9: tokenization is quote-style invariant — tokenizing a string in which
every single quote has been rewritten to a double quote produces the same
token list as tokenizing the original, for any word splitter. -/
theorem C9_tokenize_quote_invariant (wt : String → List String) (s : String) :
    tokenizeWith wt (replaceSingleQuotes s) = tokenizeWith wt s := by
  unfold tokenizeWith
  rw [tokenizePrefix_quotes]

/-- C10: `parse_limit` with a present but non-integer token after the
`limit` keyword records a limit of 1 (advancing only past the keyword), and
with no `limit` keyword at the parse position leaves the index unchanged and
the limit unset. -/
theorem C10_parse_limit_spec (toks : List String) (idx : Nat) :
    (∀ tok, toks.get? idx = some "limit" → toks.get? (idx + 1) = some tok →
      pyIntOk tok = false → parse_limit toks idx = (idx + 1, some 1)) ∧
    (toks.get? idx ≠ some "limit" → parse_limit toks idx = (idx, none)) := by
  constructor
  · intro tok h1 h2 h3
    unfold parse_limit
    rw [if_pos h1]
    simp only [h2, h3]
    rfl
  · intro h
    unfold parse_limit
    rw [if_neg h]

theorem C10_witness :
    parse_limit ["limit", "abc"] 0 = (1, some 1) ∧
    parse_limit ["select"] 0 = (0, none) :=
  ⟨(C10_parse_limit_spec ["limit", "abc"] 0).1 "abc" rfl rfl (by decide),
   (C10_parse_limit_spec ["select"] 0).2 (by decide)⟩

end SqlEval

namespace SqlEval

/-- C3 (amended): exact match is reflexive on every parser-produced AST that
stores no NaN literal — whenever `parse_sql` succeeds and the resulting AST
satisfies `sqlAstNoNan`, evaluating exact match of the AST against itself
returns 1.  The unrestricted claim fails: `nan` parses as a Python float
literal, `float('nan') == float('nan')` is false, so a query with a
`= nan` predicate parses successfully yet scores 0 against itself (see the
counterexample). -/
theorem C3_exact_match_reflexive (fuel : Nat) (toks : List String)
    (twa : List (String × String)) (schema : PySchema) (idx : Nat) (q : SqlAst)
    (hparse : parse_sql fuel toks 0 twa schema = .ok (idx, q))
    (hnan : sqlAstNoNan q = true) :
    eval_exact_match q q = 1 :=
  exact_match_self q hnan

def c3toks : List String := ["select", "col", "from", "t"]

def c3schema : PySchema := PySchema.ofTables [("t", ["col", "col2"])]

def c3twa : List (String × String) := [("t", "t")]

def c3ast : SqlAst :=
  .mk false [(0, ⟨0, ⟨0, "__t.col__", false⟩, none⟩)] [.table "__t__"]
    [] [] [] [] [] [] [] (some (.asc, [])) none none none none

set_option maxRecDepth 4000 in
set_option maxHeartbeats 1600000 in
theorem C3_witness :
    parse_sql 12 c3toks 0 c3twa c3schema = .ok (4, c3ast) ∧
    sqlAstNoNan c3ast = true ∧
    eval_exact_match c3ast c3ast = 1 :=
  ⟨by with_unfolding_all rfl,
   by simp [c3ast, sqlAstNoNan, tableListNoNan, tableUnitNoNan, condListNoNan,
        optAstNoNan],
   C3_exact_match_reflexive 12 c3toks c3twa c3schema 4 c3ast
     (by with_unfolding_all rfl)
     (by simp [c3ast, sqlAstNoNan, tableListNoNan, tableUnitNoNan, condListNoNan,
        optAstNoNan])⟩

def c3nanToks : List String :=
  ["select", "gender", "from", "patients", "where", "gender", "=", "nan"]

def c3nanSchema : PySchema := PySchema.ofTables [("patients", ["gender"])]

def c3nanTwa : List (String × String) := [("patients", "patients")]

def c3nanAst : SqlAst :=
  .mk false [(0, ⟨0, ⟨0, "__patients.gender__", false⟩, none⟩)]
    [.table "__patients__"] [] []
    [.mk false 2 ⟨0, ⟨0, "__patients.gender__", false⟩, none⟩
      (some (.num .nan)) none]
    [] [] [] [] (some (.asc, [])) none none none none

set_option maxRecDepth 4000 in
set_option maxHeartbeats 1600000 in
theorem C3_counterexample :
    parse_sql 12 c3nanToks 0 c3nanTwa c3nanSchema = .ok (8, c3nanAst) ∧
    eval_exact_match c3nanAst c3nanAst = 0 := by
  refine ⟨by with_unfolding_all rfl, ?_⟩
  rw [eval_exact_match, partial_match, eval_IUEN]
  rw [show c3nanAst.intersect = none from rfl,
      show c3nanAst.union = none from rfl,
      show c3nanAst.exceptOp = none from rfl,
      show eval_nested none none = (0, 0, 0) from by rw [eval_nested]]
  with_unfolding_all rfl

/-- C5 (amended): the normalizer is idempotent on every input containing no
semicolon and no case-insensitive occurrence of `rownum` or `gptify`; the
unrestricted idempotence stated by the spec fails (see the counterexample:
a second pass strips a `WHERE ROWNUM <= n` tail that the first pass
exposes). -/
theorem C5_normalize_idempotent_amended (s : String)
    (hS : ';' ∉ s.toList)
    (hR : ¬("rownum".toList <:+: s.toList.map pyCharLower))
    (hG : ¬("gptify".toList <:+: s.toList.map pyCharLower)) :
    normalize_oracle_sql_for_comparison (normalize_oracle_sql_for_comparison s) =
      normalize_oracle_sql_for_comparison s :=
  normalize_idem_aux s hS hR
    (fun h => hG ((show "gptify".toList <+: "gptify.".toList by decide).isInfix.trans h))

theorem C5_witness :
    normalize_oracle_sql_for_comparison (normalize_oracle_sql_for_comparison
      "  select name  from users ") =
    normalize_oracle_sql_for_comparison "  select name  from users " :=
  C5_normalize_idempotent_amended "  select name  from users "
    (by decide) (by decide) (by decide)

set_option maxRecDepth 40000 in
theorem C5_counterexample :
    normalize_oracle_sql_for_comparison (normalize_oracle_sql_for_comparison
      "SELECT * FROM T WHERE ROWNUM <= 5 AND ROWNUM <= 6") ≠
    normalize_oracle_sql_for_comparison
      "SELECT * FROM T WHERE ROWNUM <= 5 AND ROWNUM <= 6" := by decide

/-- C6 (corrected): the execution-equivalence checks return false whenever
either execution fails, and on two successful executions whose rows embed
NULL-free homogeneous integer results return true exactly when the two row
multisets are equal.  The unrestricted order-independence claimed by the
spec fails: on rows whose cells mix NULL (or a string) with a number,
Python's `sorted` raises `TypeError`, the enclosing `try` swallows it, and
both functions return false even when the two row multisets are equal —
see the counterexample, a two-row result set compared against its own
permutation (two rows must be compared by any sort, so no comparison
schedule avoids the raise). -/
theorem C6_exec_match_spec :
    (∀ t, eval_exec_match none t = false) ∧
    (∀ g, eval_exec_match g none = false) ∧
    (∀ p g e, sortRowsE p = .error e → eval_exec_match (some p) (some g) = false) ∧
    (∀ p g e, sortRowsE g = .error e → eval_exec_match (some p) (some g) = false) ∧
    (∀ p g : List (List Int),
      eval_exec_match (some (p.map cellEmb)) (some (g.map cellEmb)) = true ↔
        (p : Multiset (List Int)) = (g : Multiset (List Int))) ∧
    (∀ t, compare_execution_results none t = false) ∧
    (∀ g, compare_execution_results g none = false) ∧
    (∀ g t e, sortRowsE g = .error e →
      compare_execution_results (some g) (some t) = false) ∧
    (∀ g t e, sortRowsE t = .error e →
      compare_execution_results (some g) (some t) = false) ∧
    (∀ g t : List (List Int),
      compare_execution_results (some (g.map cellEmb)) (some (t.map cellEmb)) = true ↔
        (g : Multiset (List Int)) = (t : Multiset (List Int))) := by
  have keyL : ∀ p g : List (List PyCell), ∀ e, sortRowsE p = .error e →
      (if p.length ≠ g.length then false
       else
        match sortRowsE p, sortRowsE g with
        | .ok ps, .ok gs => decide (ps = gs)
        | _, _ => false) = false := by
    intro p g e he
    split_ifs with hlen
    · rfl
    · rw [he]
  have keyR : ∀ p g : List (List PyCell), ∀ e, sortRowsE g = .error e →
      (if p.length ≠ g.length then false
       else
        match sortRowsE p, sortRowsE g with
        | .ok ps, .ok gs => decide (ps = gs)
        | _, _ => false) = false := by
    intro p g e he
    split_ifs with hlen
    · rfl
    · rw [he]
      cases sortRowsE p <;> rfl

  have key : ∀ p g : List (List Int),
      (if (p.map cellEmb).length ≠ (g.map cellEmb).length then false
       else
        match sortRowsE (p.map cellEmb), sortRowsE (g.map cellEmb) with
        | .ok ps, .ok gs => decide (ps = gs)
        | _, _ => false) = true ↔
      (p : Multiset (List Int)) = (g : Multiset (List Int)) := by
    intro p g
    rw [sortRowsE_emb, sortRowsE_emb]
    simp only [List.length_map]
    constructor
    · intro h
      split_ifs at h with hlen
      have heq : (sortRowsB p).map cellEmb = (sortRowsB g).map cellEmb :=
        of_decide_eq_true h
      exact Multiset.coe_eq_coe.mpr
        ((sortRowsB_eq_iff_perm p g).mp (rowsEmb_injective heq))
    · intro h
      have hperm := Multiset.coe_eq_coe.mp h
      rw [if_neg (by simp [hperm.length_eq])]
      rw [(sortRowsB_eq_iff_perm p g).mpr hperm]
      simp
  refine ⟨fun t => rfl, fun g => ?_, fun p g e he => keyL p g e he,
    fun p g e he => keyR p g e he, fun p g => key p g,
    fun t => rfl, fun g => ?_, fun g t e he => keyL g t e he,
    fun g t e he => keyR g t e he, fun g t => key g t⟩
  · cases g <;> rfl
  · cases g <;> rfl

theorem C6_witness :
    eval_exec_match (some [[PyCell.null], [PyCell.int 0]])
      (some [[PyCell.int 7], [PyCell.int 8]]) = false ∧
    compare_execution_results (some [[PyCell.int 7], [PyCell.int 8]])
      (some [[PyCell.null], [PyCell.int 0]]) = false ∧
    eval_exec_match (some (([[1, 2], [3, 4]] : List (List Int)).map cellEmb))
      (some (([[3, 4], [1, 2]] : List (List Int)).map cellEmb)) = true ∧
    compare_execution_results
      (some (([[5], [6]] : List (List Int)).map cellEmb))
      (some (([[6], [5]] : List (List Int)).map cellEmb)) = true :=
  ⟨C6_exec_match_spec.2.2.1 [[PyCell.null], [PyCell.int 0]]
      [[PyCell.int 7], [PyCell.int 8]] "TypeError: unorderable types" rfl,
   C6_exec_match_spec.2.2.2.2.2.2.2.2.1 [[PyCell.int 7], [PyCell.int 8]]
      [[PyCell.null], [PyCell.int 0]] "TypeError: unorderable types" rfl,
   (C6_exec_match_spec.2.2.2.2.1 [[1, 2], [3, 4]] [[3, 4], [1, 2]]).mpr (by decide),
   (C6_exec_match_spec.2.2.2.2.2.2.2.2.2 [[5], [6]] [[6], [5]]).mpr (by decide)⟩

theorem C6_counterexample :
    eval_exec_match (some [[PyCell.null], [PyCell.int 0]])
      (some [[PyCell.int 0], [PyCell.null]]) = false ∧
    compare_execution_results (some [[PyCell.null], [PyCell.int 0]])
      (some [[PyCell.int 0], [PyCell.null]]) = false ∧
    ([[PyCell.null], [PyCell.int 0]] : Multiset (List PyCell)) =
      ([[PyCell.int 0], [PyCell.null]] : Multiset (List PyCell)) :=
  ⟨by decide, by decide, by decide⟩

end SqlEval

namespace SqlEval

theorem eval_where_both_empty (pred label : SqlAst)
    (hp : pred.whereUnits = []) (hl : label.whereUnits = []) :
    eval_where pred label = (0, 0, 0, 0) := by
  simp [eval_where, hp, hl]

theorem eval_where_pred_empty (pred label : SqlAst)
    (hp : pred.whereUnits = []) (hl : label.whereUnits ≠ []) :
    eval_where pred label = (label.whereUnits.length, 0, 0, 0) := by
  have hlen : 0 < label.whereUnits.length := List.length_pos.mpr hl
  simp only [eval_where, hp, List.length_nil]
  rw [if_neg (by simp only [true_and]; omega), if_pos (by simp only [true_and]; omega)]

theorem eval_where_label_empty (pred label : SqlAst)
    (hp : pred.whereUnits ≠ []) (hl : label.whereUnits = []) :
    eval_where pred label = (0, pred.whereUnits.length, 0, 0) := by
  have hlen : 0 < pred.whereUnits.length := List.length_pos.mpr hp
  simp only [eval_where, hl, List.length_nil]
  rw [if_neg (by simp only [and_true]; omega), if_neg (by omega),
    if_pos (by simp only [and_true]; omega)]

/-- C2 (corrected): when both the predicted and the gold AST have zero
where-predicates, the where category is the not-used sentinel — excluded
from aggregation, with no F1 of 1 recorded — while a where clause present on
exactly one side scores zero (and is not excluded). -/
theorem C2_where_empty_spec (pred label : SqlAst) :
    (pred.whereUnits = [] → label.whereUnits = [] →
      (partial_match pred label).whereE = ⟨none, none, none, 0, 0, true⟩) ∧
    (pred.whereUnits = [] → label.whereUnits ≠ [] →
      (partial_match pred label).whereE =
        ⟨some 0, some 0, some 0, label.whereUnits.length, 0, false⟩) ∧
    (pred.whereUnits ≠ [] → label.whereUnits = [] →
      (partial_match pred label).whereE =
        ⟨some 0, some 0, some 0, 0, pred.whereUnits.length, false⟩) := by
  refine ⟨?_, ?_, ?_⟩ <;> intro hp hl <;>
    simp only [partial_match]
  · rw [eval_where_both_empty pred label hp hl]
    rfl
  · rw [eval_where_pred_empty pred label hp hl]
    have hlen : label.whereUnits.length ≠ 0 := by
      have := List.length_pos.mpr hl
      omega
    show create_score_dict (get_scores 0 0 label.whereUnits.length)
      label.whereUnits.length 0 = _
    have hg : get_scores 0 0 label.whereUnits.length = some (0, 0, 0) := by
      unfold get_scores
      rw [if_neg (by omega), if_pos (by omega)]
    rw [hg]
    rfl
  · rw [eval_where_label_empty pred label hp hl]
    have hlen : pred.whereUnits.length ≠ 0 := by
      have := List.length_pos.mpr hp
      omega
    show create_score_dict (get_scores 0 pred.whereUnits.length 0)
      0 pred.whereUnits.length = _
    have hg : get_scores 0 pred.whereUnits.length 0 = some (0, 0, 0) := by
      unfold get_scores
      rw [if_neg (by omega), if_pos (by omega)]
    rw [hg]
    rfl

def c2ast : SqlAst :=
  .mk false [(0, ⟨0, ⟨0, "0", false⟩, none⟩)] [.table "1"] [] [] [] [] [] [] []
    none none none none none

theorem C2_witness :
    (partial_match c2ast c2ast).whereE = ⟨none, none, none, 0, 0, true⟩ :=
  (C2_where_empty_spec c2ast c2ast).1 rfl rfl

theorem C2_counterexample :
    (partial_match c2ast c2ast).whereE.notUsed = true ∧
    (partial_match c2ast c2ast).whereE.f1 ≠ some 1 := by
  have h : (partial_match c2ast c2ast).whereE = ⟨none, none, none, 0, 0, true⟩ := by
    simp only [partial_match]
    with_unfolding_all rfl
  rw [h]
  exact ⟨rfl, by simp⟩

theorem MultiTurnSession.add_turn_length {τ : Type} (s : MultiTurnSession τ) (t : τ) :
    (s.add_turn t).turns.length = s.turns.length + 1 := by
  simp [MultiTurnSession.add_turn]

theorem MultiTurnSession.add_turn_status {τ : Type} (s : MultiTurnSession τ) (t : τ) :
    (s.add_turn t).status =
      (if s.maxTurns ≤ s.turns.length + 1 then SessionStatus.complete
       else s.status) := by
  simp [MultiTurnSession.add_turn]

theorem MultiTurnSession.add_turn_max {τ : Type} (s : MultiTurnSession τ) (t : τ) :
    (s.add_turn t).maxTurns = s.maxTurns := rfl

theorem MultiTurnSession.addAll_spec {τ : Type} :
    ∀ (ts : List τ) (s : MultiTurnSession τ),
      (s.addAll ts).maxTurns = s.maxTurns ∧
      (s.addAll ts).turns.length = s.turns.length + ts.length ∧
      (s.addAll ts).status =
        (if s.maxTurns ≤ s.turns.length + ts.length ∧ ts.length ≠ 0 then
          SessionStatus.complete else s.status) := by
  intro ts
  induction ts with
  | nil => intro s; simp [MultiTurnSession.addAll]
  | cons t ts2 ih =>
    intro s
    have hstep : MultiTurnSession.addAll s (t :: ts2) =
        MultiTurnSession.addAll (s.add_turn t) ts2 := rfl
    rw [hstep]
    obtain ⟨h1, h2, h3⟩ := ih (s.add_turn t)
    rw [MultiTurnSession.add_turn_max] at h1 h3
    rw [MultiTurnSession.add_turn_length] at h2 h3
    refine ⟨h1, by rw [h2]; simp; omega, ?_⟩
    rw [h3, MultiTurnSession.add_turn_status]
    simp only [List.length_cons]
    split_ifs <;> first | rfl | (exfalso; omega)

/-- C4 (corrected): a session reaches the complete status exactly on the
`max_turns`-th `add_turn` call, but a further `add_turn` on the completed
session still appends a turn and leaves the status complete — no
`InvalidSessionStateError` exists anywhere in the source. -/
theorem C4_session_lifecycle (τ : Type) (N : Nat) (hN : 1 ≤ N)
    (ts : List τ) (t : τ) :
    (((MultiTurnSession.new τ N).addAll ts).turns.length = ts.length) ∧
    (ts.length < N → ((MultiTurnSession.new τ N).addAll ts).status =
      SessionStatus.inProgress) ∧
    (N ≤ ts.length → ((MultiTurnSession.new τ N).addAll ts).status =
      SessionStatus.complete) ∧
    ((((MultiTurnSession.new τ N).addAll ts).add_turn t).turns.length =
      ts.length + 1) ∧
    (N ≤ ts.length → (((MultiTurnSession.new τ N).addAll ts).add_turn t).status =
      SessionStatus.complete) := by
  obtain ⟨h1, h2, h3⟩ := MultiTurnSession.addAll_spec ts (MultiTurnSession.new τ N)
  have hnew1 : (MultiTurnSession.new τ N).maxTurns = N := rfl
  have hnew2 : (MultiTurnSession.new τ N).turns.length = 0 := rfl
  have hnew3 : (MultiTurnSession.new τ N).status = SessionStatus.inProgress := rfl
  simp only [hnew1, hnew2, hnew3] at h1 h2 h3
  have hlen : ((MultiTurnSession.new τ N).addAll ts).turns.length = ts.length := by
    rw [h2]
    omega
  refine ⟨hlen, ?_, ?_, ?_, ?_⟩
  · intro hlt
    rw [h3, if_neg (fun hc => absurd hc.1 (by omega))]
  · intro hge
    rw [h3, if_pos ⟨by omega, by omega⟩]
  · rw [MultiTurnSession.add_turn_length, hlen]
  · intro hge
    rw [MultiTurnSession.add_turn_status, h1, hlen, if_pos (by omega)]

theorem C4_witness :
    ((MultiTurnSession.new Nat 2).addAll [10, 20]).status =
      SessionStatus.complete ∧
    (((MultiTurnSession.new Nat 2).addAll [10, 20]).add_turn 30).turns.length = 3 :=
  ⟨(C4_session_lifecycle Nat 2 (by decide) [10, 20] 30).2.2.1 (by decide),
   (C4_session_lifecycle Nat 2 (by decide) [10, 20] 30).2.2.2.1⟩

theorem C4_counterexample :
    ((MultiTurnSession.new Nat 1).add_turn 7).status = SessionStatus.complete ∧
    (((MultiTurnSession.new Nat 1).add_turn 7).add_turn 8).turns.length = 2 ∧
    (((MultiTurnSession.new Nat 1).add_turn 7).add_turn 8).status =
      SessionStatus.complete := by
  refine ⟨rfl, rfl, rfl⟩

end SqlEval

namespace SqlEval

/-- C7 (corrected): `parse_col` raises on an operator token or a numeric
literal in column position, and `parse_condition` re-raises the numeric
error; but the operator error — whose message carries both marker
substrings — is caught inside `parse_condition`, which stops its loop and
returns the conditions accumulated so far instead of raising. -/
theorem C7_column_position_errors :
    (∀ fuel toks idx twa schema dts tok, toks.get? idx = some tok →
      tok ≠ "*" → pyUpperStr tok ≠ "ROWNUM" →
      (WHERE_OPS.contains tok ||
        ["<=", ">=", "!=", "<", ">", "=", "between", "like", "in"].contains tok) =
          true →
      parse_col (fuel + 1) toks idx twa schema dts =
        .error ("Operator '" ++ tok ++ "' is not a valid column name")) ∧
    (∀ fuel toks idx twa schema dts tok, toks.get? idx = some tok →
      tok ≠ "*" → pyUpperStr tok ≠ "ROWNUM" →
      (WHERE_OPS.contains tok ||
        ["<=", ">=", "!=", "<", ">", "=", "between", "like", "in"].contains tok) =
          false →
      pyFloatOk tok = true →
      parse_col (fuel + 1) toks idx twa schema dts =
        .error ("Numeric value '" ++ tok ++ "' is not a valid column name")) ∧
    (∀ fuel toks idx twa schema dts e, ¬(toks.length ≤ idx) →
      parse_val_unit fuel toks idx twa schema dts = .error e →
      containsStr "Operator" e = true →
      containsStr "is not a valid column name" e = true →
      parse_condition (fuel + 1) toks idx twa schema dts = .ok (idx, [], [])) ∧
    (∀ fuel toks idx twa schema dts e, ¬(toks.length ≤ idx) →
      parse_val_unit fuel toks idx twa schema dts = .error e →
      ¬(containsStr "Operator" e = true ∧
        containsStr "is not a valid column name" e = true) →
      parse_condition (fuel + 1) toks idx twa schema dts = .error e) := by
  refine ⟨?_, ?_, ?_, ?_⟩
  · intro fuel toks idx twa schema dts tok hget hstar hrown hop
    simp only [parse_col]
    rw [hget]
    dsimp only
    rw [if_neg hstar, if_neg hrown, if_pos hop]
  · intro fuel toks idx twa schema dts tok hget hstar hrown hop hfloat
    simp only [parse_col]
    rw [hget]
    dsimp only
    rw [if_neg hstar, if_neg hrown, if_neg (by rw [hop]; decide), if_pos hfloat]
  · intro fuel toks idx twa schema dts e hlen herr hc1 hc2
    unfold parse_condition
    simp only [parse_condition_loop]
    rw [if_neg hlen, herr]
    dsimp only
    rw [if_pos (by rw [hc1, hc2]; rfl)]
  · intro fuel toks idx twa schema dts e hlen herr hne
    unfold parse_condition
    simp only [parse_condition_loop]
    rw [if_neg hlen, herr]
    dsimp only
    rw [if_neg (fun hcontra => hne (by simpa [Bool.and_eq_true] using hcontra))]

theorem C7_witness :
    parse_col 1 [">="] 0 [] (PySchema.ofTables []) none =
      .error "Operator '>=' is not a valid column name" ∧
    parse_col 1 ["3.5"] 0 [] (PySchema.ofTables []) none =
      .error "Numeric value '3.5' is not a valid column name" ∧
    parse_condition 7 [">=", "5"] 0 [] (PySchema.ofTables []) none =
      .ok (0, [], []) ∧
    parse_condition 7 ["3.5"] 0 [] (PySchema.ofTables []) none =
      .error "parse_val_unit failed at token '3.5' (index 0): Numeric value '3.5' is not a valid column name" :=
  ⟨C7_column_position_errors.1 0 [">="] 0 [] (PySchema.ofTables []) none ">="
     rfl (by decide) (by decide) (by decide),
   C7_column_position_errors.2.1 0 ["3.5"] 0 [] (PySchema.ofTables []) none "3.5"
     rfl (by decide) (by decide) (by decide) (by decide),
   C7_column_position_errors.2.2.1 6 [">=", "5"] 0 [] (PySchema.ofTables []) none
     "parse_val_unit failed at token '>=' (index 0): Operator '>=' is not a valid column name"
     (by decide) (by with_unfolding_all rfl) (by decide) (by decide),
   C7_column_position_errors.2.2.2 6 ["3.5"] 0 [] (PySchema.ofTables []) none
     "parse_val_unit failed at token '3.5' (index 0): Numeric value '3.5' is not a valid column name"
     (by decide) (by with_unfolding_all rfl) (by decide)⟩

def c7toks : List String := ["select", "col", "from", "t", "where", ">=", "5"]

def c7schema : PySchema := PySchema.ofTables [("t", ["col", "col2"])]

def c7twa : List (String × String) := [("t", "t")]

theorem C7_counterexample :
    (parse_sql 12 c7toks 0 c7twa c7schema).toOption.map
      (fun r => (r.2.whereUnits.length, r.2.whereConns.length)) = some (0, 0) := by
  with_unfolding_all rfl

/-- The claim's own component-1 tally, written from the spec's words:
presence of any filter, any group-by, any actual order-by clause, the
cross-table join count beyond the first table, an OR connective, a LIKE
predicate. -/
def orderByClausePresent (q : SqlAst) : Bool :=
  match q.orderBy with
  | some (_, vs) => !vs.isEmpty
  | none => false

def count_comp1_claimed (q : SqlAst) : Nat :=
  (if 0 < whereLen q then 1 else 0) +
  (if 0 < q.groupBy.length then 1 else 0) +
  (if orderByClausePresent q then 1 else 0) +
  (q.fromTableUnits.length - 1) +
  (if condition_has_or q.fromConns || condition_has_or q.whereConns then 1 else 0) +
  (if condition_has_like q.whereUnits then 1 else 0)

/-- C8 (corrected): the hardness classifier returns "easy" exactly when the
source tally `count_comp1` — which counts a filter only when the interleaved
where list has length above one, counts the order-by field of every parsed
AST, and includes no join count — is at most 1 with no `count_others` and no
`count_comp2` features; and the classification never depends on the
from-clause table list. -/
theorem C8_hardness_spec :
    (∀ q : SqlAst, eval_hardness q = "easy" ↔
      (count_comp1 q ≤ 1 ∧ count_others q = 0 ∧ count_comp2 q = 0)) ∧
    (∀ (d : Bool) (si : List (Nat × ValUnit)) (tus tus' : List TableUnit)
       (fcu : List CondUnit) (fcs : List Conn) (wu : List CondUnit)
       (wc : List Conn) (gb : List ColUnit) (hu : List CondUnit)
       (hc : List Conn) (ob : Option (OrderDir × List ValUnit))
       (lim : Option Int) (i u e : Option SqlAst),
      eval_hardness (SqlAst.mk d si tus fcu fcs wu wc gb hu hc ob lim i u e) =
        eval_hardness (SqlAst.mk d si tus' fcu fcs wu wc gb hu hc ob lim i u e)) := by
  constructor
  · intro q
    simp only [eval_hardness]
    split_ifs with h1 h2 h3
    · exact iff_of_true rfl h1
    · exact iff_of_false (by decide) h1
    · exact iff_of_false (by decide) h1
    · exact iff_of_false (by decide) h1
  · intro d si tus tus' fcu fcs wu wc gb hu hc ob lim i u e
    rfl

def c8u : CondUnit := .mk false 2 ⟨0, ⟨0, "0", false⟩, none⟩ (some (.num (.finite 3 1))) none

def c8ast : SqlAst :=
  .mk false [(0, ⟨0, ⟨0, "0", false⟩, none⟩)] [.table "1"] [] [] [c8u, c8u]
    [.and] [] [] [] (some (.asc, [])) none none none none

theorem C8_counterexample :
    count_comp1_claimed c8ast = 1 ∧ count_others c8ast = 0 ∧
    count_comp2 c8ast = 0 ∧ eval_hardness c8ast = "medium" :=
  ⟨by decide, by decide, by decide, by decide⟩

end SqlEval

namespace SqlEval

def c8wast : SqlAst :=
  .mk false [] [] [] [] [] [] [] [] [] none none none none none

theorem C8_witness : eval_hardness c8wast = "easy" :=
  (C8_hardness_spec.1 c8wast).mpr (by decide)

end SqlEval
